import Mathlib

/-!
# Verification of the RAGP graph-memory engine (`src/RAGP/src/lib.rs`)

This file is a shallow embedding of the storage-and-execution core of the
RAGP engine, translated from the Rust source, together with theorems that
settle the frozen claims about it.

Modelling conventions, fixed once for the whole file:

* Node ids (`u64`) are `Nat`; ticks/timestamps (`u32`) are `Nat` (the
  source uses `saturating_add`, which never saturates in any scenario
  considered here, so plain `Nat` addition is exact).
* `f32`/`f64` weight arithmetic is modelled as exact rational arithmetic
  over `ℚ`.  Every concrete scenario below is chosen so that each
  comparison made by the program has a margin far wider than any `f32`
  rounding error, so the rational model and the floating model take the
  same branch everywhere.
* Rust `HashMap`s are modelled as association lists with first-match
  lookup (`lookupA`) and in-place replace-or-append update (`upsertA`).
  A `HashMap` never holds a duplicated key; where a theorem needs that
  structural fact about an arbitrary quantified state it appears as an
  explicit `Nodup` hypothesis on the keys.
* Chunk files (`base_XXXXXX_YYYYYY.bin`) hold raw concatenations of
  12-byte synapse records; every offset the writer produces is a multiple
  of 12, so the model addresses chunk contents in synapse units rather
  than bytes.  `read_synapses_at` is `drop`/`take` on the chunk list,
  which reproduces the source's truncating short reads and its reads that
  run past the addressed sender's run into the next one.
* The two cache tiers (`pinned_cache`, `base_cache`) are pure memo tables
  for `load_from_base`: the source invalidates the sender's line on every
  delta write, so `get_cached_or_load_base` always returns exactly
  `load_from_base(sender)`.  The main `Engine` model therefore reads the
  base directly; the cache subsystem itself (with its byte budgets and
  eviction loops) is modelled separately and faithfully as `CacheState`
  for the cache-budget claims.
* CRC32 checksums: the delta-log read path only ever tests whether the
  stored checksum matches the payload's CRC32; the arithmetic value is
  never used.  A delta file entry therefore carries a `crc_ok : Bool`
  flag meaning "the stored 32-bit checksum equals the CRC32 of the
  24-byte payload"; `append_delta_entry`, which computes and stores a
  matching checksum, writes entries with `crc_ok := true`.
* The async runtime is off (`async_runtime == None`) in the `Engine`
  model, i.e. the synchronous paths of `update_weight` and `consolidate`
  are modelled.  The admission-control block of `submit_stimulus`, which
  runs under the single shared lock, is modelled separately as a pure
  function on the shared record.
* `while let Some(..) = queue.pop_front()` in `spread_activation` is
  modelled with a fuel parameter.  Each popped entry at depth `d < 4`
  enqueues at most `outdeg` entries of depth `d + 1`; weighing an entry
  at depth `d` as `(outdeg + 1) ^ (4 - d)` gives a strictly decreasing
  measure, so the loop performs at most `(outdeg + 1) ^ 4` iterations
  from the singleton seed queue and `spreadFuel` never runs out.
-/

/-! ## Association-list primitives (the `HashMap` model) -/

/-- First-match lookup in an association list, the model of
`HashMap::get`. -/
def lookupA {β : Type} : List (Nat × β) → Nat → Option β
  | [], _ => none
  | (k, v) :: tl, x => if k = x then some v else lookupA tl x

/-- Key-membership test, the model of `HashMap::contains_key`. -/
def hasKey {β : Type} (m : List (Nat × β)) (k : Nat) : Bool :=
  (lookupA m k).isSome

/-- Replace the first binding of `k` in place, or append a fresh binding,
the model of `HashMap::insert`. -/
def upsertA {β : Type} : List (Nat × β) → Nat → β → List (Nat × β)
  | [], k, v => [(k, v)]
  | (k', v') :: tl, k, v =>
    if k' = k then (k, v) :: tl else (k', v') :: upsertA tl k v

/-! ## Data model (§3 of the source: `NodeMeta`, `Synapse`, delta log) -/

/-- One synapse record: `{ receiver_id: u64, weight: f32 }`. -/
structure Syn where
  receiver_id : Nat
  weight : ℚ
deriving DecidableEq, Repr

/-- One node-index record.  `synapse_offset = none` models the sentinel
`u64::MAX` (no synapses); `some (chunk_start, local)` models an encoded
chunk pointer, with `local` counted in 12-byte synapse units.  The
`checksum` field of the source record is omitted: the read path never
inspects it. -/
structure NodeMeta where
  synapse_count : Nat
  synapse_offset : Option (Nat × Nat)
  threshold : ℚ
deriving DecidableEq, Repr

/-- One 28-byte delta-log record as it sits in `delta.bin`.  `crc_ok`
states that the stored trailing checksum equals the CRC32 of the 24-byte
payload (see the file header comment). -/
structure DeltaFileEntry where
  sender_id : Nat
  receiver_id : Nat
  weight : ℚ
  timestamp : Nat
  crc_ok : Bool
deriving DecidableEq, Repr

/-- The delta file: 8-byte header `[magic][version][registry_version_low16]`
followed by fixed-size entries. -/
structure DeltaFile where
  magic : Nat
  version : Nat
  reg16 : Nat
  entries : List DeltaFileEntry
deriving DecidableEq, Repr

/-- The engine state visible to the synchronous core: the node index, the
on-disk chunk files, the in-memory delta overlay
(`sender ↦ receiver ↦ (weight, timestamp)`), the on-disk delta log, the
activation map, the temporal window and the tick. -/
structure Engine where
  node_index : List (Nat × NodeMeta)
  chunks : List (Nat × List Syn)
  delta_index : List (Nat × List (Nat × ℚ × Nat))
  delta_file : DeltaFile
  activation : List (Nat × ℚ)
  temporal_window : List (Nat × ℚ × Nat)
  tick : Nat
  registry_version : Nat
deriving DecidableEq, Repr

/-! ## Constants (top of `lib.rs`) -/

def MAGIC_DELTA : Nat := 0x44454C54

def VERSION : Nat := 1

def CHUNK_SPAN : Nat := 100

def MAX_SYNAPSES_PER_NODE : Nat := 7000

def INITIAL_WEIGHT : ℚ := 1 / 100

def DEFAULT_THRESHOLD : ℚ := 1 / 5

/-- The constant `PRUNE_RATIO = 0.3` of the source. -/
def PRUNE_FRACTION : ℚ := 3 / 10

def TEMPORAL_WINDOW_SIZE : Nat := 5

def MAX_SPREAD_DEPTH : Nat := 4

/-! ## Read path -/

/-- The weight clamp `v.max(0.0).min(1.0)` applied on ingest. -/
def clamp01 (v : ℚ) : ℚ := min (max v 0) 1

/-- `chunk_start_for_sender`: `((s-1)/100)*100 + 1`, with the `s = 0`
guard of the source. -/
def chunk_start_for_sender (s : Nat) : Nat :=
  if s = 0 then 1 else ((s - 1) / CHUNK_SPAN) * CHUNK_SPAN + 1

/-- `read_synapses_at`: follow an encoded chunk pointer and read `count`
synapse records.  `drop`/`take` reproduces both the truncating short read
at end of file and a read that runs past the sender's own run. -/
def read_synapses_at (e : Engine) (off : Option (Nat × Nat)) (count : Nat) :
    List Syn :=
  match off with
  | none => []
  | some (cs, lo) => (((lookupA e.chunks cs).getD []).drop lo).take count

/-- `load_from_base`: look up the sender's index record and read its run.
An unknown sender yields the empty list. -/
def load_from_base (e : Engine) (sender : Nat) : List Syn :=
  match lookupA e.node_index sender with
  | none => []
  | some meta => read_synapses_at e meta.synapse_offset meta.synapse_count

/-- `get_connections_internal`: base synapses loaded through the cache
(which always returns `load_from_base`, see header), overlaid by the
sender's delta map; the merged `HashMap` is returned as a list. -/
def get_connections_internal (e : Engine) (sender : Nat) : List (Nat × ℚ) :=
  if hasKey e.node_index sender then
    ((lookupA e.delta_index sender).getD []).foldl
      (fun m p => upsertA m p.1 p.2.1)
      ((load_from_base e sender).foldl
        (fun m s => upsertA m s.receiver_id s.weight) [])
  else []

/-- `strict_check_node`: membership in the node registry. -/
def strict_check_node (e : Engine) (node_id : Nat) : Bool :=
  hasKey e.node_index node_id

/-- `get_connections`: the strict-checked public wrapper. -/
def get_connections (e : Engine) (sender : Nat) :
    Except String (List (Nat × ℚ)) :=
  if strict_check_node e sender then .ok (get_connections_internal e sender)
  else .error "Unknown node for get_connections(sender)"

/-! ## Delta-log write path -/

/-- `append_delta_entry`: open-append one 28-byte record; the written
checksum is the CRC32 of the payload, hence `crc_ok := true`. -/
def append_delta_entry (e : Engine) (sender receiver : Nat) (weight : ℚ)
    (timestamp : Nat) : Engine :=
  { e with delta_file :=
      { e.delta_file with entries := e.delta_file.entries ++
          [⟨sender, receiver, weight, timestamp, true⟩] } }

/-- The 8-byte delta header written by `init_delta_if_needed` and
`reset_delta_file`: registry version truncated to 16 bits by
`registry_version.min(u16::MAX)`. -/
def delta_header_file (registry_version : Nat) : DeltaFile :=
  ⟨MAGIC_DELTA, VERSION, min registry_version 65535, []⟩

/-- `reset_delta_file`: rewrite `delta.bin` as a bare header. -/
def reset_delta_file (e : Engine) : Engine :=
  { e with delta_file := delta_header_file e.registry_version }

/-- `update_weight` (synchronous path, async runtime off): strict-check
both endpoints, clamp the weight, stamp with the current tick, advance
the tick, upsert the in-memory overlay and append the delta record.  The
cache invalidation of the sender's line has no observable effect in the
write-through cache model. -/
def update_weight (e : Engine) (sender receiver : Nat) (new_weight : ℚ) :
    Except String Engine :=
  if ¬ strict_check_node e sender then
    .error "Unknown node for update_weight(sender)"
  else if ¬ strict_check_node e receiver then
    .error "Unknown node for update_weight(receiver)"
  else
    let weight := clamp01 new_weight
    let ts := e.tick
    let smap := upsertA ((lookupA e.delta_index sender).getD []) receiver
      (weight, ts)
    let e' := { e with tick := e.tick + 1,
                       delta_index := upsertA e.delta_index sender smap }
    .ok (append_delta_entry e' sender receiver weight ts)

/-- A minimal three-node engine (registry `{1, 2, 3}`, empty base and
delta), used as concrete input by several witnesses. -/
def E0 : Engine :=
  ⟨[(1, ⟨0, none, DEFAULT_THRESHOLD⟩), (2, ⟨0, none, DEFAULT_THRESHOLD⟩),
    (3, ⟨0, none, DEFAULT_THRESHOLD⟩)], [], [], delta_header_file 1,
   [], [], 0, 1⟩

/-! ## Synchronous spreader (`spread_activation`, §4.5) -/

/-- `push_back` onto the temporal window followed by the capacity-5
`pop_front` of the source. -/
def pushWindow (w : List (Nat × ℚ × Nat)) (x : Nat × ℚ × Nat) :
    List (Nat × ℚ × Nat) :=
  if TEMPORAL_WINDOW_SIZE < (w ++ [x]).length then (w ++ [x]).drop 1
  else w ++ [x]

/-- Body of the `for (receiver, weight) in connections` loop of
`spread_activation`: threshold gate, max-wins update of the activation
slot, window append and enqueue one level deeper.  The state is the
engine paired with the BFS queue. -/
def spreadVisit (strength : ℚ) (depth : Nat)
    (st : Engine × List (Nat × ℚ × Nat)) (c : Nat × ℚ) :
    Engine × List (Nat × ℚ × Nat) :=
  let e := st.1
  let incoming := strength * c.2
  let threshold :=
    (lookupA e.node_index c.1).elim DEFAULT_THRESHOLD
      (fun m => m.threshold)
  if incoming < threshold then st
  else if (lookupA e.activation c.1).getD 0 < incoming then
    ({ e with activation := upsertA e.activation c.1 incoming,
              temporal_window :=
                pushWindow e.temporal_window (c.1, incoming, e.tick) },
     st.2 ++ [(c.1, incoming, depth + 1)])
  else st

/-- The `while let Some((node, strength, depth)) = queue.pop_front()`
loop of `spread_activation`, with fuel (see the header comment on
termination). -/
def spreadLoop : Nat → Engine → List (Nat × ℚ × Nat) → Engine
  | 0, e, _ => e
  | _ + 1, e, [] => e
  | fuel + 1, e, (node, strength, depth) :: rest =>
    if MAX_SPREAD_DEPTH ≤ depth then spreadLoop fuel e rest
    else
      let step := (get_connections_internal e node).foldl
        (spreadVisit strength depth) (e, rest)
      spreadLoop fuel step.1 step.2

/-- Fuel bound for `spreadLoop`: with `N` the largest out-degree in the
graph, an entry at depth `d` weighs `(N + 1) ^ (4 - d)` and every pop
strictly decreases the queue's total weight, so
`(N + 1) ^ MAX_SPREAD_DEPTH` pops exhaust the singleton seed queue. -/
def spreadFuel (e : Engine) : Nat :=
  ((e.node_index.map
      (fun p => (get_connections_internal e p.1).length)).foldl max 0 + 1)
    ^ MAX_SPREAD_DEPTH + 1

/-- `spread_activation(seed_node, seed_strength)`: strict-check the
seed, clear the activation map to `{seed ↦ strength}`, seed the temporal
window, run the bounded-depth BFS and advance the tick once. -/
def spread_activation (e : Engine) (seed_node : Nat) (seed_strength : ℚ) :
    Except String Engine :=
  if strict_check_node e seed_node then
    let e1 := { e with
      activation := [(seed_node, seed_strength)],
      temporal_window :=
        pushWindow e.temporal_window (seed_node, seed_strength, e.tick) }
    let e2 := spreadLoop (spreadFuel e1) e1 [(seed_node, seed_strength, 0)]
    .ok { e2 with tick := e2.tick + 1 }
  else .error "Unknown node for spread_activation(seed_node)"

/-- The three-node engine of scenario E of the spec: thresholds all 0.2,
edges `1→2@0.3` and `2→3@0.5` (held in the delta overlay, as two
`update_weight` calls leave them). -/
def E2 : Engine :=
  ⟨[(1, ⟨0, none, DEFAULT_THRESHOLD⟩), (2, ⟨0, none, DEFAULT_THRESHOLD⟩),
    (3, ⟨0, none, DEFAULT_THRESHOLD⟩)], [],
   [(1, [(2, (3/10, 0))]), (2, [(3, (1/2, 0))])],
   delta_header_file 1, [], [], 0, 1⟩

/-! ## Claim C10: frame of `spread_activation` -/

/-- The store-side view of an engine: node registry, chunk files, delta
overlay, delta log and registry version (everything except activation,
window and tick). -/
def storeView (e : Engine) :
    List (Nat × NodeMeta) × List (Nat × List Syn) ×
      List (Nat × List (Nat × ℚ × Nat)) × DeltaFile × Nat :=
  (e.node_index, e.chunks, e.delta_index, e.delta_file,
   e.registry_version)

/-! ## Consolidator (`rebuild_base_bin`, `consolidate`, §4.7) -/

/-- The descending-by-weight order used by the source's stable
`sort_by(|a, b| b.weight.partial_cmp(&a.weight))`; Mathlib's
`insertionSort` with a non-strict total relation is stable, like Rust's
`sort_by`. -/
def synDesc (a b : Syn) : Prop := b.weight ≤ a.weight

instance : DecidableRel synDesc := fun a b =>
  inferInstanceAs (Decidable (b.weight ≤ a.weight))

instance : IsTotal Syn synDesc := ⟨fun a b => le_total b.weight a.weight⟩

instance : IsTrans Syn synDesc := ⟨fun _ _ _ h1 h2 => le_trans h2 h1⟩

/-- The ascending-by-node-id order of `all_data.sort_by_key`. -/
def dataAsc (a b : Nat × List Syn) : Prop := a.1 ≤ b.1

instance : DecidableRel dataAsc := fun a b =>
  inferInstanceAs (Decidable (a.1 ≤ b.1))

instance : IsTotal (Nat × List Syn) dataAsc := ⟨fun a b => le_total a.1 b.1⟩

instance : IsTrans (Nat × List Syn) dataAsc := ⟨fun _ _ _ h1 h2 => le_trans h1 h2⟩

/-- One delta binding applied to a loaded synapse list:
`iter_mut().find(receiver)` sets the first matching weight in place,
otherwise the synapse is pushed at the end. -/
def apply_delta_upsert (syns : List Syn) (receiver : Nat) (w : ℚ) :
    List Syn :=
  match syns with
  | [] => [⟨receiver, w⟩]
  | s :: tl =>
    if s.receiver_id = receiver then ⟨receiver, w⟩ :: tl
    else s :: apply_delta_upsert tl receiver w

/-- A sender's delta map folded onto its loaded base list (the
`for (receiver, (weight, _)) in delta` merge loop). -/
def merge_delta (syns : List Syn) (delta : List (Nat × ℚ × Nat)) :
    List Syn :=
  delta.foldl (fun acc p => apply_delta_upsert acc p.1 p.2.1) syns

/-- The prune-and-sort step shared verbatim by `consolidate` and
`rebuild_base_bin`: on a non-empty list, drop every synapse whose weight
is below `avg · PRUNE_RATIO` and sort descending by weight. -/
def prune_sort (syns : List Syn) : List Syn :=
  match syns with
  | [] => []
  | _ :: _ =>
    List.insertionSort synDesc (syns.filter (fun s =>
      ((syns.map (fun s' => s'.weight)).sum / (syns.length : ℚ)) *
        PRUNE_FRACTION ≤ s.weight))

/-- `write_base_manifest_and_chunks`: clear all chunk files, rebuild the
per-chunk buffers and index records in `all_data` order (offsets are the
running buffer lengths, in synapse units), then install the new counts,
offsets and thresholds into the in-memory metas.  Thresholds are read
from the pre-write node index, as in the source.  Sorting the records by
node id only orders the manifest bytes; the per-key meta updates are
order-independent, so the model folds the records directly. -/
def write_base_manifest_and_chunks (e : Engine)
    (all_data : List (Nat × List Syn)) : Engine :=
  let built := all_data.foldl (fun st p =>
    let threshold := (lookupA e.node_index p.1).elim DEFAULT_THRESHOLD
      (fun m => m.threshold)
    if p.2.isEmpty then (st.1, st.2 ++ [(p.1, 0, none, threshold)])
    else
      let cs := chunk_start_for_sender p.1
      let buf := (lookupA st.1 cs).getD []
      (upsertA st.1 cs (buf ++ p.2),
       st.2 ++ [(p.1, p.2.length, some (cs, buf.length), threshold)]))
    (([] : List (Nat × List Syn)),
     ([] : List (Nat × Nat × Option (Nat × Nat) × ℚ)))
  let node_index' := built.2.foldl (fun ni r0 =>
    match lookupA ni r0.1 with
    | some meta => upsertA ni r0.1
        { meta with synapse_count := r0.2.1,
                    synapse_offset := r0.2.2.1,
                    threshold := r0.2.2.2 }
    | none => ni) e.node_index
  { e with chunks := built.1, node_index := node_index' }

/-- `rebuild_base_bin`: for every registered sender, reload its base run
(through the possibly already rewritten meta count), merge the delta
overlay, prune and sort, then hand the id-sorted data set to the
writer. -/
def rebuild_base_bin (e : Engine) : Engine :=
  write_base_manifest_and_chunks e
    (List.insertionSort dataAsc ((e.node_index.map Prod.fst).map
      (fun id => (id, prune_sort (merge_delta (load_from_base e id)
        ((lookupA e.delta_index id).getD []))))))

/-- Body of `consolidate`'s merge loop for one delta sender: load base,
apply the delta (counting merges), prune below `avg · PRUNE_RATIO`
(counting prunes), sort descending and store the new length into the
in-memory meta count. -/
def consolidateMergeStep (st : Engine × Nat × Nat) (sender : Nat) :
    Engine × Nat × Nat :=
  let e := st.1
  let delta := (lookupA e.delta_index sender).getD []
  let merged := merge_delta (load_from_base e sender) delta
  let pruned := prune_sort merged
  let e' := match lookupA e.node_index sender with
    | some meta =>
      let ni := upsertA e.node_index sender
        { meta with synapse_count := pruned.length }
      { e with node_index := ni }
    | none => e
  (e', st.2.1 + delta.length, st.2.2 + (merged.length - pruned.length))

/-- `consolidate` (synchronous path, async runtime off): run the merge
loop over every delta sender, rebuild the base, clear the delta overlay
and log, clear activation and window, and return `(merged, pruned)`. -/
def consolidate (e : Engine) : Engine × Nat × Nat :=
  let st := (e.delta_index.map Prod.fst).foldl consolidateMergeStep
    (e, 0, 0)
  let e1 := rebuild_base_bin st.1
  ({ e1 with delta_index := [],
             delta_file := delta_header_file e1.registry_version,
             temporal_window := [], activation := [] },
   st.2.1, st.2.2)

/-- A four-node engine whose single delta sender carries weights
`{2 ↦ 1.0, 3 ↦ 0.15, 4 ↦ 0.05}` — the state reached by three
`update_weight` calls on a fresh four-node pool. -/
def E5 : Engine :=
  ⟨[(1, ⟨0, none, DEFAULT_THRESHOLD⟩), (2, ⟨0, none, DEFAULT_THRESHOLD⟩),
    (3, ⟨0, none, DEFAULT_THRESHOLD⟩), (4, ⟨0, none, DEFAULT_THRESHOLD⟩)],
   [], [(1, [(2, (1, 0)), (3, (3/20, 1)), (4, (1/20, 2))])],
   delta_header_file 1, [], [], 3, 1⟩

/-! ## Claim C4 -/

/-- Modelled from the spec (§4.7 step 2, testable property 7): after
`consolidate`, a sender's edges are its base list merged with its delta
overlay (delta replacing base per receiver id), filtered to the weights
at least `0.3` times the mean of the merged list, sorted descending by
weight.  This reads the sender's base through the pre-consolidation meta
count, i.e. the merged list "before prune" that the spec's formula is
stated over. -/
def spec_merged_pruned_edges (e : Engine) (sender : Nat) : List Syn :=
  prune_sort (merge_delta (load_from_base e sender)
    ((lookupA e.delta_index sender).getD []))

/-- The four-node engine of the C4 failing input: sender 1 has base
edges `[2@0.9, 3@0.8, 4@0.7]` on disk (count 3) and delta updates
`{2 ↦ 0.01, 3 ↦ 0.01}` — the state reached by consolidating three
`update_weight` calls and then lowering two of the weights. -/
def E4 : Engine :=
  ⟨[(1, ⟨3, some (1, 0), DEFAULT_THRESHOLD⟩),
    (2, ⟨0, none, DEFAULT_THRESHOLD⟩), (3, ⟨0, none, DEFAULT_THRESHOLD⟩),
    (4, ⟨0, none, DEFAULT_THRESHOLD⟩)],
   [(1, [⟨2, 9/10⟩, ⟨3, 4/5⟩, ⟨4, 7/10⟩])],
   [(1, [(2, (1/100, 3)), (3, (1/100, 4))])],
   delta_header_file 1, [], [], 5, 1⟩

/-! ## Delta-log replay (`load_delta_index`, §4.2) and claim C6 -/

/-- One entry of the replay loop of `load_delta_index`: skip on CRC
mismatch, skip entries with unregistered endpoints, then last-write-wins
insert (an existing strictly newer binding survives) and the
`max_ts` watermark update.  State: `(delta_index, max_ts)`. -/
def load_delta_entry (ni : List (Nat × NodeMeta))
    (st : List (Nat × List (Nat × ℚ × Nat)) × Nat) (x : DeltaFileEntry) :
    List (Nat × List (Nat × ℚ × Nat)) × Nat :=
  if x.crc_ok = false then st
  else if ¬ (hasKey ni x.sender_id = true ∧ hasKey ni x.receiver_id = true)
  then st
  else
    let smap := (lookupA st.1 x.sender_id).getD []
    let t' := if st.2 < x.timestamp + 1 then x.timestamp + 1 else st.2
    match lookupA smap x.receiver_id with
    | some p =>
      if x.timestamp < p.2 then (st.1, t')
      else (upsertA st.1 x.sender_id
        (upsertA smap x.receiver_id (x.weight, x.timestamp)), t')
    | none => (upsertA st.1 x.sender_id
        (upsertA smap x.receiver_id (x.weight, x.timestamp)), t')

/-- `load_delta_index`: verify the 8-byte header (magic, version, and
the 16-bit registry version against the engine's current one), then
replay the entries onto the in-memory overlay and advance the tick past
the largest observed timestamp.  Any header mismatch returns with the
engine untouched. -/
def load_delta_index (e : Engine) (f : DeltaFile) : Engine :=
  if f.magic ≠ MAGIC_DELTA then e
  else if f.version ≠ VERSION then e
  else if f.reg16 ≠ e.registry_version then e
  else
    let st := f.entries.foldl (load_delta_entry e.node_index)
      (e.delta_index, e.tick)
    { e with delta_index := st.1,
             tick := if e.tick < st.2 then st.2 else e.tick }

/-- Modelled from the spec (§3, §4.2): the last-write-wins overlay of a
list of delta entries — for each `(sender, receiver)` pair the
later-timestamp weight wins, later entries winning ties. -/
def spec_lww_overlay (d : List (Nat × List (Nat × ℚ × Nat)))
    (entries : List DeltaFileEntry) :
    List (Nat × List (Nat × ℚ × Nat)) :=
  entries.foldl (fun d x =>
    let smap := (lookupA d x.sender_id).getD []
    match lookupA smap x.receiver_id with
    | some p =>
      if x.timestamp < p.2 then d
      else upsertA d x.sender_id
        (upsertA smap x.receiver_id (x.weight, x.timestamp))
    | none => upsertA d x.sender_id
        (upsertA smap x.receiver_id (x.weight, x.timestamp))) d

/-- The engine configured with `registry_version = 65536`, two nodes,
an empty overlay. -/
def E6 : Engine :=
  ⟨[(1, ⟨0, none, DEFAULT_THRESHOLD⟩), (2, ⟨0, none, DEFAULT_THRESHOLD⟩)],
   [], [], delta_header_file 65536, [], [], 0, 65536⟩

/-- The delta file the `E6` engine itself writes: header registry
version truncated to 16 bits (`min(65536, 65535) = 65535`), one valid
entry `1→2@0.5`. -/
def F6 : DeltaFile :=
  { delta_header_file 65536 with entries := [⟨1, 2, 1/2, 0, true⟩] }

/-! ## Competition degree (`compute_cd`, §6) and claim C7 -/

/-- The descending order on `(action, Cd)` pairs used by the source's
`sort_by(|a, b| b.1.partial_cmp(&a.1))` over Cd values;  `f64::MAX` is
modelled as `⊤`, which sorts above every finite Cd exactly as
`f64::MAX` does over the representable Cd range. -/
def cdDesc (a b : Nat × WithTop ℚ) : Prop := b.2 ≤ a.2

instance : DecidableRel cdDesc := fun a b =>
  inferInstanceAs (Decidable (b.2 ≤ a.2))

instance : IsTotal (Nat × WithTop ℚ) cdDesc := ⟨fun a b => le_total b.2 a.2⟩

instance : IsTrans (Nat × WithTop ℚ) cdDesc :=
  ⟨fun _ _ _ h1 h2 => le_trans h2 h1⟩

/-- The Cd of one outgoing `action` of the stimulus, carried with edge
weight `value`: `cost` is the mean weight of the action's own outgoing
edges (1 if it has none), `opportunity` the mean of the `ctx → action`
weights collected over the context list (0.5 if none), and
`Cd = value·opportunity/cost`, `⊤` when `cost = 0`. -/
def cd_for (e : Engine) (context : List Nat) (action : Nat) (value : ℚ) :
    WithTop ℚ :=
  let cost_conns := get_connections_internal e action
  let cost : ℚ :=
    if cost_conns = [] then 1
    else (cost_conns.map (fun p => p.2)).sum / (cost_conns.length : ℚ)
  let opp_weights := context.foldl (fun acc ctx =>
    acc ++ (get_connections_internal e ctx).filterMap
      (fun p => if p.1 = action then some p.2 else none)) []
  let opportunity : ℚ :=
    if opp_weights = [] then 1/2
    else opp_weights.sum / (opp_weights.length : ℚ)
  if cost = 0 then ⊤ else ((value * opportunity / cost : ℚ) : WithTop ℚ)

/-- `compute_cd(stimulus, context)`: strict-check all nodes, score every
outgoing neighbor of the stimulus and sort descending by Cd. -/
def compute_cd (e : Engine) (stimulus : Nat) (context : List Nat) :
    Except String (List (Nat × WithTop ℚ)) :=
  if ¬ strict_check_node e stimulus = true then
    .error "Unknown node for compute_cd(stimulus)"
  else if ¬ context.all (fun c => strict_check_node e c) = true then
    .error "Unknown node for compute_cd(context)"
  else
    let actions := get_connections_internal e stimulus
    if actions = [] then .ok []
    else
      .ok (List.insertionSort cdDesc
        (actions.map (fun a => (a.1, cd_for e context a.1 a.2))))

/-! ## Async ingress admission (`submit_stimulus`, §4.6) and claim C8 -/

/-- The slice of the shared async record that the admission block of
`submit_stimulus` reads and writes under the single lock. -/
structure AsyncSharedM where
  ingress_paused : Bool
  guard_mode : String
  global_queue_len : Nat
  per_shard_queue_len : List Nat
  dropped_total : Nat
deriving DecidableEq, Repr

/-- The admission block of `submit_stimulus`, executed atomically under
the shared lock: install the freshly refreshed guard mode, drop when
ingress is paused, drop when the mode is `"critical"` with the global
queue above 20000 (counting `dropped_total` in both cases), otherwise
count the stimulus into the global and owner-shard queue lengths. -/
def ingress_admission (s0 : AsyncSharedM) (gm : String) (owner : Nat) :
    Bool × AsyncSharedM :=
  let s := { s0 with guard_mode := gm }
  if s.ingress_paused then
    (false, { s with dropped_total := s.dropped_total + 1 })
  else if s.guard_mode = "critical" ∧ 20000 < s.global_queue_len then
    (false, { s with dropped_total := s.dropped_total + 1 })
  else
    (true, { s with
      global_queue_len := s.global_queue_len + 1,
      per_shard_queue_len := s.per_shard_queue_len.set owner
        (s.per_shard_queue_len.getD owner 0 + 1) })

/-- `submit_stimulus` down to its admission decision: strict node check,
runtime-present check, then admission under the lock.  A stimulus
rejected by admission control makes the call return `Ok(false)` cleanly;
an admitted one is routed to the owner shard and the call returns the
shard's acknowledgement (`shard_reply`). -/
def submit_stimulus (node_registered : Bool) (runtime_on : Bool)
    (s : AsyncSharedM) (gm : String) (owner : Nat) (shard_reply : Bool) :
    Except String Bool × AsyncSharedM :=
  if node_registered = false then
    (.error "Unknown node for submit_stimulus(node_id)", s)
  else if runtime_on = false then
    (.error "async runtime is OFF; call start_async_runtime first", s)
  else
    let adm := ingress_admission s gm owner
    if adm.1 = false then (.ok false, adm.2)
    else (.ok shard_reply, adm.2)

/-! ## Hybrid cache budget (`enforce_cache_budget`, §4.3) and claim C9 -/

/-- The cache-side state of the engine: the two tiers (`base_cache` is
the LRU tier, most-recent first, so `pop_lru` removes the last element),
the pinned set, the access counters and the computed budgets. -/
structure CacheState where
  pinned_cache : List (Nat × List Syn)
  base_cache : List (Nat × List Syn)
  pinned_set : List Nat
  access_count : List (Nat × Nat)
  cache_policy : String
  cache_budget_bytes : Nat
  pinned_budget_bytes : Nat
  lru_budget_bytes : Nat
deriving DecidableEq, Repr

/-- `node_cache_bytes_from_len`: `len · SYNAPSE_SIZE + 64` with
`SYNAPSE_SIZE = 12`. -/
def node_cache_bytes_from_len (len : Nat) : Nat := len * 12 + 64

/-- The recounted pinned-tier byte estimate. -/
def pinned_bytes_est (st : CacheState) : Nat :=
  (st.pinned_cache.map (fun p => node_cache_bytes_from_len p.2.length)).sum

/-- The recounted LRU-tier byte estimate. -/
def lru_bytes_est (st : CacheState) : Nat :=
  (st.base_cache.map (fun p => node_cache_bytes_from_len p.2.length)).sum

/-- The recounted total byte estimate `cache_bytes_est`.  The source
recounts the stored fields before every loop test, so the stored value
always equals this derived sum at each comparison and at return. -/
def cache_bytes_est (st : CacheState) : Nat :=
  pinned_bytes_est st + lru_bytes_est st

/-- `pinned_score_from_synapses`:
`0.6·max(weight) + 0.4·(access / max_access)`. -/
def pinned_score_from_synapses (st : CacheState) (node_id : Nat)
    (synapses : List Syn) (max_access : ℚ) : ℚ :=
  let max_weight := synapses.foldl
    (fun acc s => if acc < s.weight then s.weight else acc) 0
  let access : ℚ := ((lookupA st.access_count node_id).getD 0 : ℚ)
  let access_norm := if max_access ≤ 0 then 0 else access / max_access
  6/10 * max_weight + 4/10 * access_norm

/-- `lowest_scored_pinned_cached`: the first strict minimum of the
pinned tier by score (`max_access` defaults to 1 on an empty counter
map); `none` exactly on an empty pinned tier. -/
def lowest_scored_pinned_cached (st : CacheState) : Option Nat :=
  let max_access : ℚ :=
    (((st.access_count.map (fun p => p.2)).max?).getD 1 : ℚ)
  (st.pinned_cache.foldl (fun w p =>
    let score := pinned_score_from_synapses st p.1 p.2 max_access
    match w with
    | some q => if q.2 ≤ score then w else some (p.1, score)
    | none => some (p.1, score)) none).map Prod.fst

/-- `HashMap::remove` of the victim from the pinned tier and the pinned
set (the tiers hold each key at most once). -/
def remove_pinned (st : CacheState) (victim : Nat) : CacheState :=
  { st with
    pinned_cache := st.pinned_cache.filter (fun p => p.1 ≠ victim),
    pinned_set := st.pinned_set.filter (fun k => k ≠ victim) }

/-- First loop of `enforce_cache_budget`: evict from the LRU tier until
it is within its budget (`pop_lru` returning `None` breaks). -/
def lru_evict_loop : Nat → CacheState → CacheState
  | 0, st => st
  | fuel + 1, st =>
    if lru_bytes_est st ≤ st.lru_budget_bytes then st
    else
      match st.base_cache with
      | [] => st
      | _ :: _ =>
        lru_evict_loop fuel { st with base_cache := st.base_cache.dropLast }

/-- Second loop (policy `pinned_lru` only): evict the lowest-scored
pinned entry until the pinned tier is within its budget. -/
def pinned_evict_loop : Nat → CacheState → CacheState
  | 0, st => st
  | fuel + 1, st =>
    if pinned_bytes_est st ≤ st.pinned_budget_bytes then st
    else
      match lowest_scored_pinned_cached st with
      | none => st
      | some victim => pinned_evict_loop fuel (remove_pinned st victim)

/-- Third loop: while the total estimate exceeds the combined budget,
pop the LRU tier if it is non-empty, else evict the lowest-scored
pinned entry, breaking when both tiers are exhausted. -/
def combined_evict_loop : Nat → CacheState → CacheState
  | 0, st => st
  | fuel + 1, st =>
    if cache_bytes_est st ≤ st.cache_budget_bytes then st
    else
      match st.base_cache with
      | _ :: _ =>
        combined_evict_loop fuel
          { st with base_cache := st.base_cache.dropLast }
      | [] =>
        match lowest_scored_pinned_cached st with
        | none => st
        | some victim => combined_evict_loop fuel (remove_pinned st victim)

/-- `enforce_cache_budget`: the three eviction loops in sequence.  Each
while-loop removes one entry per iteration, so fuel equal to the tier
lengths at entry never runs out. -/
def enforce_cache_budget (st : CacheState) : CacheState :=
  let st1 := lru_evict_loop st.base_cache.length st
  let st2 :=
    if st1.cache_policy = "pinned_lru" then
      pinned_evict_loop st1.pinned_cache.length st1
    else st1
  combined_evict_loop (st2.pinned_cache.length + st2.base_cache.length) st2

/-! ## Synapse formation (`form_synapses_from_window`, §4.5) and claim C3 -/

/-- `synapse_count_for`: the sender's base meta count plus the size of
its delta map. -/
def synapse_count_for (e : Engine) (sender : Nat) : Nat :=
  (lookupA e.node_index sender).elim 0 (fun m => m.synapse_count) +
    ((lookupA e.delta_index sender).getD []).length

/-- One candidate receiver `nodes[j]` of the inner formation loop, for
the fixed outer sender `nodes[i]`: skip `j = i`, skip unregistered
receivers, sample the random source (skipping when the sample exceeds
`strength_i · strength_j`), skip edges already in delta or base, and
otherwise append a fresh `0.01` edge stamped with the current tick.
State: `(engine, formed, index into the random stream)`. -/
def formInnerStep (rands : Nat → ℚ) (i sender : Nat) (s_strength : ℚ)
    (st : Engine × Nat × Nat) (jp : Nat × Nat × ℚ) : Engine × Nat × Nat :=
  if jp.1 = i then st
  else if ¬ hasKey st.1.node_index jp.2.1 = true then st
  else if s_strength * jp.2.2 < rands st.2.2 then
    (st.1, st.2.1, st.2.2 + 1)
  else if hasKey ((lookupA st.1.delta_index sender).getD []) jp.2.1 then
    (st.1, st.2.1, st.2.2 + 1)
  else if (load_from_base st.1 sender).any
      (fun s => s.receiver_id = jp.2.1) then
    (st.1, st.2.1, st.2.2 + 1)
  else
    let ts := st.1.tick
    let e' := append_delta_entry st.1 sender jp.2.1 INITIAL_WEIGHT ts
    let smap' := upsertA ((lookupA e'.delta_index sender).getD []) jp.2.1
      (INITIAL_WEIGHT, ts)
    ({ e' with delta_index := upsertA e'.delta_index sender smap' },
     st.2.1 + 1, st.2.2 + 1)

/-- One outer sender `nodes[i]` of the formation loop: skip unregistered
senders, senders whose window strength is below their own threshold and
senders already at `MAX_SYNAPSES_PER_NODE`; the admitted sender runs the
inner loop over the whole window without re-checking the limit. -/
def formOuterStep (rands : Nat → ℚ) (nodes : List (Nat × ℚ))
    (st : Engine × Nat × Nat) (ip : Nat × Nat × ℚ) : Engine × Nat × Nat :=
  if ¬ hasKey st.1.node_index ip.2.1 = true then st
  else if ip.2.2 < (lookupA st.1.node_index ip.2.1).elim DEFAULT_THRESHOLD
      (fun m => m.threshold) then st
  else if MAX_SYNAPSES_PER_NODE ≤ synapse_count_for st.1 ip.2.1 then st
  else nodes.enum.foldl (formInnerStep rands ip.1 ip.2.1 ip.2.2) st

/-- `form_synapses_from_window`: snapshot the temporal window as
`(node, strength)` pairs and run the two nested loops.  `rands` is the
stream of `rand_f32()` samples, consumed in call order starting at
index `k0`; the result carries the engine, the `formed` count and the
next stream index. -/
def form_synapses_from_window (e : Engine) (rands : Nat → ℚ) (k0 : Nat) :
    Engine × Nat × Nat :=
  let nodes := e.temporal_window.map (fun t => (t.1, t.2.1))
  nodes.enum.foldl (formOuterStep rands nodes) (e, 0, k0)

/-- `form_synapses_from_window` iterated `n` times, threading the engine
and the position in the shared random stream (the engine's RNG state
advances across calls). -/
def form_calls (rands : Nat → ℚ) : Nat → Engine × Nat → Engine × Nat
  | 0, p => p
  | n + 1, p =>
    let r := form_synapses_from_window p.1 rands p.2
    form_calls rands n (r.1, r.2.2)

/-- The 6999-synapse base run of the C3 counterexample's sender 1:
receivers 2..7000, all at weight 1.0. -/
def baseRun : List Syn := (List.range 6999).map (fun j => Syn.mk (j + 2) 1)

/-- The registry tail of the C3 counterexample: nodes 2..7005 with the
default meta. -/
def tailMeta : List (Nat × NodeMeta) :=
  (List.range 7004).map (fun j => (j + 2, ⟨0, none, DEFAULT_THRESHOLD⟩))

/-- The engine of the C3 counterexample: node 1 holds 6999 consolidated
base edges (weights 1.0) to receivers 2..7000, the registry also holds
the fresh receivers 7001..7005, and the temporal window carries node 1
at full strength together with 7001..7004 at strength 0.1 (below the
0.2 threshold, so they form nothing of their own). -/
def E3 : Engine :=
  ⟨(1, ⟨6999, some (1, 0), DEFAULT_THRESHOLD⟩) :: tailMeta,
   [(1, baseRun)],
   [], delta_header_file 1, [],
   [(1, 1, 0), (7001, 1/10, 1), (7002, 1/10, 2), (7003, 1/10, 3),
    (7004, 1/10, 4)],
   5, 1⟩

/-- A minimal engine whose single sender 1 sits exactly at the 7000
limit (meta count 7000, no overlay) and is alone in the window. -/
def E3L : Engine :=
  ⟨[(1, ⟨7000, none, DEFAULT_THRESHOLD⟩)], [], [], delta_header_file 0,
   [], [(1, 1, 0)], 0, 0⟩

/-! ## Association-list lemmas -/

theorem lookupA_upsertA_self {β : Type} (m : List (Nat × β)) (k : Nat)
    (v : β) : lookupA (upsertA m k v) k = some v := by
  induction m with
  | nil => simp [upsertA, lookupA]
  | cons hd tl ih =>
    obtain ⟨k', v'⟩ := hd
    by_cases h : k' = k
    · subst h; simp [upsertA, lookupA]
    · simp [upsertA, lookupA, h, ih]

theorem lookupA_upsertA_ne {β : Type} (m : List (Nat × β)) (k k' : Nat)
    (v : β) (h : k' ≠ k) : lookupA (upsertA m k v) k' = lookupA m k' := by
  induction m with
  | nil => simp [upsertA, lookupA, Ne.symm h]
  | cons hd tl ih =>
    obtain ⟨k₀, v₀⟩ := hd
    by_cases hk : k₀ = k
    · subst hk
      simp [upsertA, lookupA, Ne.symm h]
    · by_cases hk' : k₀ = k'
      · subst hk'
        simp [upsertA, lookupA, hk]
      · simp [upsertA, lookupA, hk, hk', ih]

/-- Keys of an upsert: the new key is merged in. -/
theorem keys_upsertA {β : Type} (m : List (Nat × β)) (k : Nat) (v : β) :
    ((upsertA m k v).map Prod.fst) =
      if k ∈ m.map Prod.fst then m.map Prod.fst
      else m.map Prod.fst ++ [k] := by
  induction m with
  | nil => simp [upsertA]
  | cons hd tl ih =>
    obtain ⟨k₀, v₀⟩ := hd
    by_cases hk : k₀ = k
    · subst hk; simp [upsertA]
    · simp only [upsertA, if_neg hk, List.map_cons, ih]
      by_cases hm : k ∈ tl.map Prod.fst
      · simp [hm, Ne.symm hk]
      · simp [hm, Ne.symm hk]

theorem nodup_keys_upsertA {β : Type} (m : List (Nat × β)) (k : Nat)
    (v : β) (h : (m.map Prod.fst).Nodup) :
    ((upsertA m k v).map Prod.fst).Nodup := by
  rw [keys_upsertA]
  split
  · exact h
  · next hc =>
    simp only [List.nodup_append, List.nodup_cons, List.not_mem_nil,
      not_false_iff, List.nodup_nil, true_and, List.disjoint_singleton]
    exact ⟨h, by simpa using hc⟩

theorem lookupA_isSome_iff_mem {β : Type} (m : List (Nat × β)) (k : Nat) :
    (lookupA m k).isSome ↔ k ∈ m.map Prod.fst := by
  induction m with
  | nil => simp [lookupA]
  | cons hd tl ih =>
    obtain ⟨k₀, v₀⟩ := hd
    by_cases hk : k₀ = k
    · subst hk; simp [lookupA]
    · simp [lookupA, hk, ih, Ne.symm hk]

/-- In a map with `Nodup` keys, the bindings of a looked-up key are
exactly one pair. -/
theorem filter_eq_of_lookupA {β : Type} [DecidableEq β]
    (m : List (Nat × β)) (k : Nat) (v : β)
    (hnd : (m.map Prod.fst).Nodup) (hl : lookupA m k = some v) :
    m.filter (fun p => p.1 = k) = [(k, v)] := by
  induction m with
  | nil => simp [lookupA] at hl
  | cons hd tl ih =>
    obtain ⟨k₀, v₀⟩ := hd
    simp only [List.map_cons, List.nodup_cons] at hnd
    by_cases hk : k₀ = k
    · subst hk
      simp [lookupA] at hl
      subst hl
      have hfil : tl.filter (fun p => p.1 = k₀) = [] := by
        rw [List.filter_eq_nil_iff]
        intro p hp hpk
        simp only [decide_eq_true_eq] at hpk
        exact hnd.1 (hpk ▸ List.mem_map_of_mem Prod.fst hp)
      simp [List.filter_cons, hfil]
    · simp only [lookupA, if_neg hk] at hl
      have := ih hnd.2 hl
      simp [List.filter_cons, hk, this]

/-- Effect of a fold of upserts on a lookup: the last binding of the key
in the folded list wins; if the key never occurs the underlying map
answers. -/
theorem lookupA_foldl_upsertA {γ : Type} {β : Type}
    (f : γ → Nat) (g : γ → β) (l : List γ) (m : List (Nat × β)) (k : Nat) :
    lookupA (l.foldl (fun acc p => upsertA acc (f p) (g p)) m) k =
      (l.reverse.find? (fun p => f p = k)).elim (lookupA m k)
        (fun p => some (g p)) := by
  induction l generalizing m with
  | nil => simp
  | cons hd tl ih =>
    simp only [List.foldl_cons, List.reverse_cons, ih]
    rw [List.find?_append]
    cases hfind : tl.reverse.find? (fun p => f p = k) with
    | some p => simp
    | none =>
      simp only [Option.none_or]
      by_cases hk : f hd = k
      · subst hk; simp [lookupA_upsertA_self]
      · simp [hk, lookupA_upsertA_ne _ _ _ _ (Ne.symm hk)]

theorem nodup_keys_foldl_upsertA {γ : Type} {β : Type}
    (f : γ → Nat) (g : γ → β) (l : List γ) (m : List (Nat × β))
    (h : (m.map Prod.fst).Nodup) :
    (((l.foldl (fun acc p => upsertA acc (f p) (g p)) m)).map
      Prod.fst).Nodup := by
  induction l generalizing m with
  | nil => simpa
  | cons hd tl ih => exact ih _ (nodup_keys_upsertA _ _ _ h)

/-- Specialization of `lookupA_foldl_upsertA` to the delta-overlay fold
of `get_connections_internal`. -/
theorem lookupA_foldl_upsert_delta (l : List (Nat × ℚ × Nat))
    (m : List (Nat × ℚ)) (k : Nat) :
    lookupA (l.foldl (fun acc p => upsertA acc p.1 p.2.1) m) k =
      (l.reverse.find? (fun p => p.1 = k)).elim (lookupA m k)
        (fun p => some p.2.1) :=
  lookupA_foldl_upsertA (fun p => p.1) (fun p => p.2.1) l m k

/-! ## Claim C1 -/

/-- The merged connection map always has `Nodup` keys: it is built by
upserts from the empty map. -/
theorem nodup_keys_get_connections_internal (e : Engine) (s : Nat) :
    ((get_connections_internal e s).map Prod.fst).Nodup := by
  unfold get_connections_internal
  split
  · exact nodup_keys_foldl_upsertA (fun p : Nat × ℚ × Nat => p.1)
      (fun p => p.2.1) _ _
      (nodup_keys_foldl_upsertA (fun p : Syn => p.receiver_id)
        (fun p => p.weight) _ [] (by simp))
  · simp

/-- Lookup of the merged connection map at a receiver that the sender's
delta map binds (as its last occurrence): the delta weight wins over any
base weight. -/
theorem lookupA_connections_of_delta (e : Engine) (s r : Nat) (w : ℚ)
    (ts : Nat)
    (hreg : hasKey e.node_index s)
    (hfind : ((lookupA e.delta_index s).getD []).reverse.find?
      (fun p => p.1 = r) = some (r, w, ts)) :
    lookupA (get_connections_internal e s) r = some w := by
  unfold get_connections_internal
  rw [if_pos hreg, lookupA_foldl_upsert_delta, hfind]
  rfl

theorem find?_eq_head?_filter {α : Type} (p : α → Bool) (l : List α) :
    l.find? p = (l.filter p).head? := by
  induction l with
  | nil => simp
  | cons hd tl ih =>
    by_cases h : p hd
    · simp [List.find?_cons, List.filter_cons, h]
    · rw [List.find?_cons, List.filter_cons, if_neg h]
      have hf : p hd = false := by
        simp only [Bool.not_eq_true] at h
        exact h
      rw [hf]
      exact ih

theorem filter_reverse' {α : Type} (p : α → Bool) (l : List α) :
    l.reverse.filter p = (l.filter p).reverse := by
  induction l with
  | nil => simp
  | cons hd tl ih =>
    by_cases h : p hd <;>
      simp [List.filter_cons, List.filter_append, h, ih]

/-- In a map with `Nodup` keys that binds `k` to `v`, searching the
reversed bindings for key `k` finds exactly `(k, v)`. -/
theorem reverse_find?_of_nodup {β : Type} [DecidableEq β]
    (m : List (Nat × β)) (k : Nat) (v : β)
    (hnd : (m.map Prod.fst).Nodup) (hl : lookupA m k = some v) :
    m.reverse.find? (fun p => p.1 = k) = some (k, v) := by
  rw [find?_eq_head?_filter, filter_reverse',
    filter_eq_of_lookupA m k v hnd hl]
  rfl

/-- Bindings of `r` in the merged connection list, given that the
sender's delta map has `Nodup` keys and binds `r` to `(w, ts)`: exactly
the single pair `(r, w)`. -/
theorem filter_connections_of_delta (e : Engine) (s r : Nat) (w : ℚ)
    (ts : Nat)
    (hreg : hasKey e.node_index s)
    (hnd : (((lookupA e.delta_index s).getD []).map Prod.fst).Nodup)
    (hl : lookupA ((lookupA e.delta_index s).getD []) r = some (w, ts)) :
    (get_connections_internal e s).filter (fun p => p.1 = r) = [(r, w)] :=
  filter_eq_of_lookupA _ r w (nodup_keys_get_connections_internal e s)
    (lookupA_connections_of_delta e s r w ts hreg
      (reverse_find?_of_nodup _ r (w, ts) hnd hl))

/-- Normal form of a successful `update_weight` on the synchronous
path. -/
theorem update_weight_ok (e : Engine) (s r : Nat) (w : ℚ)
    (hs : strict_check_node e s = true)
    (hr : strict_check_node e r = true) :
    update_weight e s r w = .ok (append_delta_entry
      { e with tick := e.tick + 1,
               delta_index := upsertA e.delta_index s
                 (upsertA ((lookupA e.delta_index s).getD []) r
                   (clamp01 w, e.tick)) } s r (clamp01 w) e.tick) := by
  unfold update_weight
  rw [if_neg (by simp [hs]), if_neg (by simp [hr])]

/-- Observable effect of one successful `update_weight`: the sender's
merged connection list binds the receiver exactly once, to the clamped
weight; the node index is untouched and the sender's delta map keeps
`Nodup` keys. -/
theorem update_weight_filter (e : Engine) (s r : Nat) (w : ℚ)
    (e1 : Engine)
    (hs : strict_check_node e s = true)
    (hr : strict_check_node e r = true)
    (hnd : (((lookupA e.delta_index s).getD []).map Prod.fst).Nodup)
    (h : update_weight e s r w = .ok e1) :
    (get_connections_internal e1 s).filter (fun p => p.1 = r) =
        [(r, clamp01 w)] ∧
      e1.node_index = e.node_index ∧
      (((lookupA e1.delta_index s).getD []).map Prod.fst).Nodup := by
  rw [update_weight_ok e s r w hs hr] at h
  injection h with he
  subst he
  have hpd : (append_delta_entry
      { e with tick := e.tick + 1,
               delta_index := upsertA e.delta_index s
                 (upsertA ((lookupA e.delta_index s).getD []) r
                   (clamp01 w, e.tick)) } s r (clamp01 w)
        e.tick).delta_index =
      upsertA e.delta_index s
        (upsertA ((lookupA e.delta_index s).getD []) r
          (clamp01 w, e.tick)) := by
    simp [append_delta_entry]
  refine ⟨?_, by simp [append_delta_entry], ?_⟩
  · refine filter_connections_of_delta _ s r _ e.tick ?_ ?_ ?_
    · show hasKey _ s = true
      simp only [append_delta_entry]
      exact hs
    · rw [hpd, lookupA_upsertA_self, Option.getD_some]
      exact nodup_keys_upsertA _ _ _ hnd
    · rw [hpd, lookupA_upsertA_self, Option.getD_some,
        lookupA_upsertA_self]
  · rw [hpd, lookupA_upsertA_self, Option.getD_some]
    exact nodup_keys_upsertA _ _ _ hnd

/-- C1.  For registered `s` and `r`, `update_weight(s, r, w)` succeeds
and afterwards `get_connections(s)` contains exactly one pair with
receiver `r`, carrying `w` clamped to `[0, 1]`; a second
`update_weight(s, r, w')` makes that single pair carry `w'` clamped,
the delta overlay superseding any base weight for `(s, r)`.  The `Nodup`
hypothesis is the `HashMap` key-uniqueness structural invariant of the
sender's delta map. -/
theorem C1_update_weight_unique_connection (e : Engine) (s r : Nat)
    (w w' : ℚ)
    (hs : strict_check_node e s = true)
    (hr : strict_check_node e r = true)
    (hnd : (((lookupA e.delta_index s).getD []).map Prod.fst).Nodup) :
    ∃ e1 e2,
      update_weight e s r w = .ok e1 ∧
      (get_connections_internal e1 s).filter (fun p => p.1 = r) =
        [(r, clamp01 w)] ∧
      update_weight e1 s r w' = .ok e2 ∧
      (get_connections_internal e2 s).filter (fun p => p.1 = r) =
        [(r, clamp01 w')] := by
  obtain ⟨e1, h1⟩ : ∃ x, update_weight e s r w = .ok x :=
    ⟨_, update_weight_ok e s r w hs hr⟩
  obtain ⟨hf1, hidx1, hnd1⟩ := update_weight_filter e s r w e1 hs hr hnd h1
  have hs1 : strict_check_node e1 s = true := by
    unfold strict_check_node
    rw [hidx1]
    exact hs
  have hr1 : strict_check_node e1 r = true := by
    unfold strict_check_node
    rw [hidx1]
    exact hr
  obtain ⟨e2, h2⟩ : ∃ x, update_weight e1 s r w' = .ok x :=
    ⟨_, update_weight_ok e1 s r w' hs1 hr1⟩
  obtain ⟨hf2, h2a, h2b⟩ :=
    update_weight_filter e1 s r w' e2 hs1 hr1 hnd1 h2
  exact ⟨e1, e2, h1, hf1, h2, hf2⟩

/-- Witness for C1 at the concrete scenario of the spec
(`update_weight(1,2,0.5)` then `update_weight(1,2,0.8)` on a 3-node
registry). -/
theorem C1_witness :
    ∃ e1 e2,
      update_weight E0 1 2 (1/2) = .ok e1 ∧
      (get_connections_internal e1 1).filter (fun p => p.1 = 2) =
        [(2, clamp01 (1/2))] ∧
      update_weight e1 1 2 (4/5) = .ok e2 ∧
      (get_connections_internal e2 1).filter (fun p => p.1 = 2) =
        [(2, clamp01 (4/5))] :=
  C1_update_weight_unique_connection E0 1 2 (1/2) (4/5) rfl rfl
    (by simp [E0, lookupA])

/-- C2.  On the engine with thresholds 0.2 and edges `1→2@0.3`,
`2→3@0.5`, `spread_activation(1, 1.0)` leaves the activation map exactly
`{1 ↦ 1.0, 2 ↦ 0.3}` and node 3 inactive: the seed is written at full
strength, the edge into 2 passes its threshold (`1.0·0.3 ≥ 0.2`) and
wins over the empty slot, and the step `2→3` carries
`0.3·0.5 = 0.15 < 0.2` and is skipped. -/
theorem C2_spread_activation_below_threshold :
    (spread_activation E2 1 1).map
      (fun e' => (e'.activation, lookupA e'.activation 3)) =
    .ok ([(1, 1), (2, 3/10)], none) := by
  norm_num [spread_activation, E2, strict_check_node, hasKey, lookupA,
    get_connections_internal, load_from_base, read_synapses_at, upsertA,
    spreadFuel, spreadLoop, spreadVisit, pushWindow, MAX_SPREAD_DEPTH,
    TEMPORAL_WINDOW_SIZE, DEFAULT_THRESHOLD, Except.map]

theorem storeView_spreadVisit (strength : ℚ) (depth : Nat)
    (st : Engine × List (Nat × ℚ × Nat)) (c : Nat × ℚ) :
    storeView (spreadVisit strength depth st c).1 = storeView st.1 ∧
      (spreadVisit strength depth st c).1.tick = st.1.tick := by
  unfold spreadVisit
  dsimp only
  split
  · exact ⟨rfl, rfl⟩
  · split
    · exact ⟨rfl, rfl⟩
    · exact ⟨rfl, rfl⟩

theorem storeView_spreadFold (strength : ℚ) (depth : Nat)
    (l : List (Nat × ℚ)) :
    ∀ st : Engine × List (Nat × ℚ × Nat),
      storeView ((l.foldl (spreadVisit strength depth) st).1) =
          storeView st.1 ∧
        ((l.foldl (spreadVisit strength depth) st).1).tick = st.1.tick := by
  induction l with
  | nil => intro st; exact ⟨rfl, rfl⟩
  | cons hd tl ih =>
    intro st
    have h1 := storeView_spreadVisit strength depth st hd
    have h2 := ih (spreadVisit strength depth st hd)
    exact ⟨h2.1.trans h1.1, h2.2.trans h1.2⟩

theorem storeView_spreadLoop :
    ∀ (fuel : Nat) (e : Engine) (q : List (Nat × ℚ × Nat)),
      storeView (spreadLoop fuel e q) = storeView e ∧
        (spreadLoop fuel e q).tick = e.tick := by
  intro fuel
  induction fuel with
  | zero => intro e q; exact ⟨rfl, rfl⟩
  | succ fuel ih =>
    intro e q
    match q with
    | [] => exact ⟨rfl, rfl⟩
    | (node, strength, depth) :: rest =>
      rw [spreadLoop]
      split
      · exact ih e rest
      · have hf := storeView_spreadFold strength depth
          (get_connections_internal e node) (e, rest)
        have h2 := ih
          ((get_connections_internal e node).foldl
            (spreadVisit strength depth) (e, rest)).1
          ((get_connections_internal e node).foldl
            (spreadVisit strength depth) (e, rest)).2
        exact ⟨h2.1.trans hf.1, h2.2.trans hf.2⟩

/-- C10.  For every registered seed, `spread_activation` neither appends
to the delta log nor changes the delta overlay, the node registry, the
chunk files or the registry version: the store view of the engine is
unchanged and only activation, temporal window and tick (advanced by
one) move. -/
theorem C10_spread_activation_frame (e : Engine) (seed : Nat) (σ : ℚ)
    (hseed : strict_check_node e seed = true) :
    (spread_activation e seed σ).map
      (fun e' => (e'.node_index, e'.chunks, e'.delta_index,
        e'.delta_file, e'.registry_version, e'.tick)) =
    .ok (e.node_index, e.chunks, e.delta_index, e.delta_file,
      e.registry_version, e.tick + 1) := by
  unfold spread_activation
  rw [if_pos hseed]
  obtain ⟨hs, ht⟩ := storeView_spreadLoop
    (spreadFuel { e with
      activation := [(seed, σ)],
      temporal_window := pushWindow e.temporal_window (seed, σ, e.tick) })
    { e with
      activation := [(seed, σ)],
      temporal_window := pushWindow e.temporal_window (seed, σ, e.tick) }
    [(seed, σ, 0)]
  unfold storeView at hs
  simp only [Prod.mk.injEq] at hs
  obtain ⟨h1, h2, h3, h4, h5⟩ := hs
  refine congrArg Except.ok ?_
  dsimp only
  simp only [Prod.mk.injEq]
  exact ⟨h1, h2, h3, h4, h5, by rw [ht]⟩

/-- Witness for C10 at the concrete engine `E2`, seed 1, strength 1. -/
theorem C10_witness :
    strict_check_node E2 1 = true ∧
      (spread_activation E2 1 1).map
        (fun e' => (e'.node_index, e'.chunks, e'.delta_index,
          e'.delta_file, e'.registry_version, e'.tick)) =
      .ok (E2.node_index, E2.chunks, E2.delta_index, E2.delta_file,
        E2.registry_version, E2.tick + 1) :=
  ⟨rfl, C10_spread_activation_frame E2 1 1 rfl⟩

/-! ## Claim C5 -/

/-- `consolidate` always leaves the delta overlay empty. -/
theorem delta_index_consolidate (e : Engine) :
    (consolidate e).1.delta_index = [] := rfl

/-- When the delta overlay is empty, `consolidate`'s merge loop visits
no sender, so both returned counters are zero. -/
theorem consolidate_counters_of_empty_delta (e : Engine)
    (h : e.delta_index = []) : (consolidate e).2 = (0, 0) := by
  unfold consolidate
  rw [h]
  rfl

/-- C5 (amended).  Running `consolidate` twice back-to-back always
returns `(merged = 0, pruned = 0)` from the second call: the first call
cleared the delta overlay, so the second call's merge loop is empty.
(The second half of the original claim — that the second call leaves the
observable edge sets unchanged — fails; see the counterexample.) -/
theorem C5_second_consolidate_returns_zero (e : Engine) :
    (consolidate (consolidate e).1).2 = (0, 0) :=
  consolidate_counters_of_empty_delta _ (delta_index_consolidate e)

/-- C5 counterexample.  On `E5` the first `consolidate` leaves sender 1
with edges `{2 ↦ 1.0, 3 ↦ 0.15}` (mean 0.4, prune cut 0.12 removes only
0.05), but the second `consolidate` prunes again with the new mean
(0.575, cut 0.1725 > 0.15) and removes edge 3: the second call does not
leave the observable edge set unchanged. -/
theorem C5_counterexample_second_consolidate_changes_edges :
    get_connections_internal (consolidate E5).1 1 = [(2, 1), (3, 3/20)] ∧
    get_connections_internal (consolidate (consolidate E5).1).1 1 =
      [(2, 1)] ∧
    get_connections_internal (consolidate (consolidate E5).1).1 1 ≠
      get_connections_internal (consolidate E5).1 1 := by
  have h1 : get_connections_internal (consolidate E5).1 1 =
      [(2, 1), (3, 3/20)] := by
    norm_num [consolidate, consolidateMergeStep, rebuild_base_bin,
      write_base_manifest_and_chunks, prune_sort, merge_delta,
      apply_delta_upsert, load_from_base, read_synapses_at,
      get_connections_internal, strict_check_node, hasKey, lookupA,
      upsertA, chunk_start_for_sender, delta_header_file, E5,
      PRUNE_FRACTION, DEFAULT_THRESHOLD, CHUNK_SPAN, synDesc, dataAsc]
  have h2 : get_connections_internal (consolidate (consolidate E5).1).1 1 =
      [(2, 1)] := by
    norm_num [consolidate, consolidateMergeStep, rebuild_base_bin,
      write_base_manifest_and_chunks, prune_sort, merge_delta,
      apply_delta_upsert, load_from_base, read_synapses_at,
      get_connections_internal, strict_check_node, hasKey, lookupA,
      upsertA, chunk_start_for_sender, delta_header_file, E5,
      PRUNE_FRACTION, DEFAULT_THRESHOLD, CHUNK_SPAN, synDesc, dataAsc]
  refine ⟨h1, h2, ?_⟩
  rw [h1, h2]
  intro hcon
  simpa using congrArg List.length hcon

/-- C4 divergence.  On `E4` the spec's formula keeps exactly edge
`4@0.7` (merged mean 0.24, cut 0.072 prunes both 0.01 edges), but the
code's `consolidate` ends sender 1 with `[2@0.01, 3@0.01]` and drops
edge 4 entirely: the merge loop stores the pruned length 1 into
`meta.synapse_count` before `rebuild_base_bin` re-reads the still
unrewritten base through it, truncating `[2@0.9, 3@0.8, 4@0.7]` to
`[2@0.9]` and re-merging the delta onto that. -/
theorem C4_consolidate_stale_count_divergence :
    spec_merged_pruned_edges E4 1 = [⟨4, 7/10⟩] ∧
    load_from_base (consolidate E4).1 1 = [⟨2, 1/100⟩, ⟨3, 1/100⟩] ∧
    load_from_base (consolidate E4).1 1 ≠ spec_merged_pruned_edges E4 1 := by
  have hspec : spec_merged_pruned_edges E4 1 = [⟨4, 7/10⟩] := by
    norm_num [spec_merged_pruned_edges, prune_sort, merge_delta,
      apply_delta_upsert, load_from_base, read_synapses_at, lookupA,
      E4, PRUNE_FRACTION, synDesc]
  have hcode : load_from_base (consolidate E4).1 1 =
      [⟨2, 1/100⟩, ⟨3, 1/100⟩] := by
    norm_num [consolidate, consolidateMergeStep, rebuild_base_bin,
      write_base_manifest_and_chunks, prune_sort, merge_delta,
      apply_delta_upsert, load_from_base, read_synapses_at, lookupA,
      upsertA, chunk_start_for_sender, delta_header_file, E4,
      PRUNE_FRACTION, DEFAULT_THRESHOLD, CHUNK_SPAN, synDesc, dataAsc]
  refine ⟨hspec, hcode, ?_⟩
  rw [hspec, hcode]
  intro hcon
  simpa using congrArg List.length hcon

/-- The replay fold applies exactly the last-write-wins overlay when
every entry passes the CRC and endpoint checks. -/
theorem load_fold_eq_lww (ni : List (Nat × NodeMeta))
    (entries : List DeltaFileEntry)
    (hok : ∀ x ∈ entries, x.crc_ok = true ∧ hasKey ni x.sender_id = true ∧
      hasKey ni x.receiver_id = true) :
    ∀ (d : List (Nat × List (Nat × ℚ × Nat))) (t : Nat),
      (entries.foldl (load_delta_entry ni) (d, t)).1 =
        spec_lww_overlay d entries := by
  induction entries with
  | nil => intro d t; simp [spec_lww_overlay]
  | cons x tl ih =>
    intro d t
    obtain ⟨hcrc, hs, hr⟩ := hok x (List.mem_cons_self x tl)
    have hok' : ∀ y ∈ tl, y.crc_ok = true ∧ hasKey ni y.sender_id = true ∧
        hasKey ni y.receiver_id = true :=
      fun y hy => hok y (List.mem_cons_of_mem x hy)
    simp only [List.foldl_cons, spec_lww_overlay, load_delta_entry, hcrc,
      hs, hr, and_self, not_true, if_false, Bool.true_eq_false, ite_false,
      not_false_iff, ite_true]
    rw [← spec_lww_overlay]
    cases hm : lookupA ((lookupA d x.sender_id).getD []) x.receiver_id with
    | none => exact ih hok' _ _
    | some p =>
      by_cases hts : x.timestamp < p.2
      · simp only [hts, ite_true]
        exact ih hok' _ _
      · simp only [hts, ite_false]
        exact ih hok' _ _

/-- C6 (amended).  A delta file whose embedded 16-bit registry version
differs from the engine's current registry version is ignored entirely
(the engine, overlay included, is returned unchanged), for every file
and every configured version.  Conversely, a delta written by the engine
itself (header version `min(registry_version, 65535)`) with valid
entries over registered endpoints is replayed as the last-write-wins
overlay when the registry version is unchanged — provided it fits in 16
bits.  (The original unconditional converse fails at
`registry_version = 65536`; see the counterexample.) -/
theorem C6_delta_registry_version_gate (e : Engine)
    (entries : List DeltaFileEntry)
    (hrv : e.registry_version < 65536)
    (hok : ∀ x ∈ entries, x.crc_ok = true ∧
      hasKey e.node_index x.sender_id = true ∧
      hasKey e.node_index x.receiver_id = true) :
    (∀ f : DeltaFile, f.reg16 ≠ e.registry_version →
      load_delta_index e f = e) ∧
    (load_delta_index e
      { delta_header_file e.registry_version with
        entries := entries }).delta_index =
      spec_lww_overlay e.delta_index entries := by
  constructor
  · intro f hne
    unfold load_delta_index
    by_cases h1 : f.magic ≠ MAGIC_DELTA
    · rw [if_pos h1]
    · rw [if_neg h1]
      by_cases h2 : f.version ≠ VERSION
      · rw [if_pos h2]
      · rw [if_neg h2, if_pos hne]
  · have hreg : min e.registry_version 65535 = e.registry_version :=
      Nat.min_eq_left (by omega)
    unfold load_delta_index
    rw [if_neg (by simp [delta_header_file, MAGIC_DELTA]),
      if_neg (by simp [delta_header_file, VERSION]),
      if_neg (by simp [delta_header_file, hreg])]
    exact load_fold_eq_lww e.node_index entries hok e.delta_index e.tick

/-- Witness for C6 (amended) at a 3-node engine and a single
self-written entry `1→2@0.5`. -/
theorem C6_witness :
    (∀ f : DeltaFile, f.reg16 ≠ E0.registry_version →
      load_delta_index E0 f = E0) ∧
    (load_delta_index E0
      { delta_header_file E0.registry_version with
        entries := [⟨1, 2, 1/2, 0, true⟩] }).delta_index =
      spec_lww_overlay E0.delta_index [⟨1, 2, 1/2, 0, true⟩] :=
  C6_delta_registry_version_gate E0 [⟨1, 2, 1/2, 0, true⟩]
    (by norm_num [E0])
    (by
      intro x hx
      simp only [List.mem_singleton] at hx
      subst hx
      exact ⟨rfl, rfl, rfl⟩)

/-- C6 counterexample.  At `registry_version = 65536` the engine's own
delta file is ignored on load (header holds 65535, which mismatches):
no entry reaches the overlay even though the registry version never
changed — refuting the claim's unconditional converse. -/
theorem C6_counterexample_truncated_registry_version :
    load_delta_index E6 F6 = E6 ∧
    (load_delta_index E6 F6).delta_index ≠
      spec_lww_overlay E6.delta_index F6.entries := by
  have h : load_delta_index E6 F6 = E6 := by
    unfold load_delta_index
    rw [if_neg (by norm_num [F6, delta_header_file, MAGIC_DELTA]),
      if_neg (by norm_num [F6, delta_header_file, VERSION]),
      if_pos (by norm_num [F6, E6, delta_header_file])]
  refine ⟨h, ?_⟩
  rw [h]
  have hspec : spec_lww_overlay E6.delta_index F6.entries =
      [(1, [(2, (1/2, 0))])] := by
    norm_num [spec_lww_overlay, E6, F6, lookupA, upsertA,
      delta_header_file]
  rw [hspec]
  intro hcon
  simpa [E6] using congrArg List.length hcon

/-- C7.  For a registered stimulus and registered context, `compute_cd`
succeeds and returns exactly one pair per outgoing neighbor of the
stimulus (its action ids are a duplicate-free permutation of the
neighbor ids), every neighbor `(a, v)` is scored `cd_for` (the
`value·opportunity/cost` formula with the 1 / 0.5 defaults and `⊤` at
zero cost), and the list is sorted descending by Cd. -/
theorem C7_compute_cd_sorted_scores (e : Engine) (stimulus : Nat)
    (context : List Nat)
    (hstim : strict_check_node e stimulus = true)
    (hctx : context.all (fun c => strict_check_node e c) = true) :
    ∃ out, compute_cd e stimulus context = .ok out ∧
      (out.map Prod.fst).Perm
        ((get_connections_internal e stimulus).map Prod.fst) ∧
      (out.map Prod.fst).Nodup ∧
      (∀ a v, (a, v) ∈ get_connections_internal e stimulus →
        (a, cd_for e context a v) ∈ out) ∧
      out.Pairwise cdDesc := by
  unfold compute_cd
  rw [if_neg (by simp [hstim]), if_neg (by simp [hctx])]
  by_cases hact : get_connections_internal e stimulus = []
  · rw [if_pos hact]
    exact ⟨[], rfl, by simp [hact], by simp, by simp [hact], by simp⟩
  · rw [if_neg hact]
    refine ⟨_, rfl, ?_, ?_, ?_, ?_⟩
    · have hp := List.perm_insertionSort cdDesc
        ((get_connections_internal e stimulus).map
          (fun a => (a.1, cd_for e context a.1 a.2)))
      have := hp.map Prod.fst
      simpa [List.map_map, Function.comp] using this
    · have hp := List.perm_insertionSort cdDesc
        ((get_connections_internal e stimulus).map
          (fun a => (a.1, cd_for e context a.1 a.2)))
      have hnd := nodup_keys_get_connections_internal e stimulus
      have hmap : (((get_connections_internal e stimulus).map
          (fun a => (a.1, cd_for e context a.1 a.2))).map Prod.fst) =
          (get_connections_internal e stimulus).map Prod.fst := by
        simp [List.map_map, Function.comp]
      refine ((hp.map Prod.fst).nodup_iff).mpr ?_
      rw [hmap]
      exact hnd
    · intro a v hmem
      have h1 : (a, cd_for e context a v) ∈
          ((get_connections_internal e stimulus).map
            (fun a => (a.1, cd_for e context a.1 a.2))) := by
        exact List.mem_map_of_mem _ hmem
      exact ((List.perm_insertionSort cdDesc _).mem_iff).mpr h1
    · exact List.sorted_insertionSort cdDesc _

/-- Witness for C7: the engine `E2`, stimulus 1, context `[3]`. -/
theorem C7_witness :
    ∃ out, compute_cd E2 1 [3] = .ok out ∧
      (out.map Prod.fst).Perm
        ((get_connections_internal E2 1).map Prod.fst) ∧
      (out.map Prod.fst).Nodup ∧
      (∀ a v, (a, v) ∈ get_connections_internal E2 1 →
        (a, cd_for E2 [3] a v) ∈ out) ∧
      out.Pairwise cdDesc :=
  C7_compute_cd_sorted_scores E2 1 [3] rfl rfl

/-- C8.  With the runtime on and the node registered, `submit_stimulus`
drops the stimulus — returning `Ok(false)` cleanly, incrementing
`dropped_total` and leaving every queue length unchanged — exactly when
ingress is paused or the refreshed guard mode is `"critical"` with the
global queue length above 20000; otherwise it increments the global
queue length and the owner shard's queue length, leaves `dropped_total`
unchanged, and returns the owner shard's acknowledgement. -/
theorem C8_submit_stimulus_admission (s : AsyncSharedM) (gm : String)
    (owner : Nat) (reply : Bool)
    (howner : owner < s.per_shard_queue_len.length) :
    ((s.ingress_paused = true ∨
        (gm = "critical" ∧ 20000 < s.global_queue_len)) →
      (submit_stimulus true true s gm owner reply).1 = .ok false ∧
      (submit_stimulus true true s gm owner reply).2.dropped_total =
        s.dropped_total + 1 ∧
      (submit_stimulus true true s gm owner reply).2.global_queue_len =
        s.global_queue_len ∧
      (submit_stimulus true true s gm owner reply).2.per_shard_queue_len =
        s.per_shard_queue_len) ∧
    (¬ (s.ingress_paused = true ∨
        (gm = "critical" ∧ 20000 < s.global_queue_len)) →
      (submit_stimulus true true s gm owner reply).1 = .ok reply ∧
      (submit_stimulus true true s gm owner reply).2.dropped_total =
        s.dropped_total ∧
      (submit_stimulus true true s gm owner reply).2.global_queue_len =
        s.global_queue_len + 1 ∧
      (submit_stimulus true true s gm owner
        reply).2.per_shard_queue_len.getD owner 0 =
        s.per_shard_queue_len.getD owner 0 + 1) := by
  constructor
  · intro hdrop
    cases hp : s.ingress_paused with
    | true =>
      simp [submit_stimulus, ingress_admission, hp]
    | false =>
      have hc : gm = "critical" ∧ 20000 < s.global_queue_len := by
        rcases hdrop with h | h
        · rw [hp] at h; exact absurd h (by simp)
        · exact h
      simp [submit_stimulus, ingress_admission, hp, hc]
  · intro hpass
    push_neg at hpass
    obtain ⟨hp, hc⟩ := hpass
    have hp' : s.ingress_paused = false := by
      cases h : s.ingress_paused with
      | true => exact absurd h hp
      | false => rfl
    have hc' : ¬ (gm = "critical" ∧ 20000 < s.global_queue_len) := by
      intro ⟨h1, h2⟩
      exact absurd h2 (by simpa using hc h1)
    refine ⟨?_, ?_, ?_, ?_⟩ <;>
      simp [submit_stimulus, ingress_admission, hp', hc',
        List.getElem?_set_eq_of_lt _ howner]

/-- Witness for C8: scenario F of the spec — guard mode `"critical"`
with the global queue length above 20000 on a two-shard record. -/
theorem C8_witness :
    ((AsyncSharedM.mk false "normal" 20001 [0, 0] 0).ingress_paused =
        true ∨
      ("critical" = "critical" ∧ 20000 <
        (AsyncSharedM.mk false "normal" 20001 [0, 0] 0).global_queue_len) →
      (submit_stimulus true true
        (AsyncSharedM.mk false "normal" 20001 [0, 0] 0) "critical" 1
        true).1 = .ok false ∧
      (submit_stimulus true true
        (AsyncSharedM.mk false "normal" 20001 [0, 0] 0) "critical" 1
        true).2.dropped_total =
        (AsyncSharedM.mk false "normal" 20001 [0, 0] 0).dropped_total +
          1 ∧
      (submit_stimulus true true
        (AsyncSharedM.mk false "normal" 20001 [0, 0] 0) "critical" 1
        true).2.global_queue_len =
        (AsyncSharedM.mk false "normal" 20001 [0, 0] 0).global_queue_len ∧
      (submit_stimulus true true
        (AsyncSharedM.mk false "normal" 20001 [0, 0] 0) "critical" 1
        true).2.per_shard_queue_len =
        (AsyncSharedM.mk false "normal" 20001 [0, 0]
          0).per_shard_queue_len) ∧
    (¬ ((AsyncSharedM.mk false "normal" 20001 [0, 0] 0).ingress_paused =
        true ∨
      ("critical" = "critical" ∧ 20000 <
        (AsyncSharedM.mk false "normal" 20001 [0, 0] 0).global_queue_len)) →
      (submit_stimulus true true
        (AsyncSharedM.mk false "normal" 20001 [0, 0] 0) "critical" 1
        true).1 = .ok true ∧
      (submit_stimulus true true
        (AsyncSharedM.mk false "normal" 20001 [0, 0] 0) "critical" 1
        true).2.dropped_total =
        (AsyncSharedM.mk false "normal" 20001 [0, 0] 0).dropped_total ∧
      (submit_stimulus true true
        (AsyncSharedM.mk false "normal" 20001 [0, 0] 0) "critical" 1
        true).2.global_queue_len =
        (AsyncSharedM.mk false "normal" 20001 [0, 0] 0).global_queue_len +
          1 ∧
      (submit_stimulus true true
        (AsyncSharedM.mk false "normal" 20001 [0, 0] 0) "critical" 1
        true).2.per_shard_queue_len.getD 1 0 =
        (AsyncSharedM.mk false "normal" 20001 [0, 0]
          0).per_shard_queue_len.getD 1 0 + 1) :=
  C8_submit_stimulus_admission
    (AsyncSharedM.mk false "normal" 20001 [0, 0] 0) "critical" 1 true
    (by simp)

/-- A `some` answer of `lowest_scored_pinned_cached` names a key of the
pinned tier. -/
theorem lowest_scored_mem (st : CacheState) (v : Nat)
    (h : lowest_scored_pinned_cached st = some v) :
    v ∈ st.pinned_cache.map Prod.fst := by
  unfold lowest_scored_pinned_cached at h
  have main : ∀ (l : List (Nat × List Syn)) (ma : ℚ)
      (w : Option (Nat × ℚ)) (p : Nat × ℚ),
      l.foldl (fun w p =>
        let score := pinned_score_from_synapses st p.1 p.2 ma
        match w with
        | some q => if q.2 ≤ score then w else some (p.1, score)
        | none => some (p.1, score)) w = some p →
      (∃ q, w = some q ∧ p = q) ∨ p.1 ∈ l.map Prod.fst := by
    intro l
    induction l with
    | nil =>
      intro ma w p hp
      simp only [List.foldl_nil] at hp
      exact Or.inl ⟨p, hp, rfl⟩
    | cons hd tl ih =>
      intro ma w p hp
      simp only [List.foldl_cons] at hp
      rcases ih ma _ p hp with ⟨q, hq, rfl⟩ | hmem
      · cases w with
        | none =>
          simp only at hq
          right
          simp [← Option.some_inj.mp hq]
        | some q0 =>
          simp only at hq
          by_cases hsc : q0.2 ≤ pinned_score_from_synapses st hd.1 hd.2 ma
          · rw [if_pos hsc] at hq
            exact Or.inl ⟨q0, rfl, (Option.some_inj.mp hq).symm⟩
          · rw [if_neg hsc] at hq
            right
            simp [← Option.some_inj.mp hq]
      · exact Or.inr (List.mem_cons_of_mem _ hmem)
  rcases Option.map_eq_some'.mp h with ⟨p, hp, rfl⟩
  rcases main st.pinned_cache _ none p hp with ⟨q, hq, _⟩ | hmem
  · exact absurd hq (by simp)
  · exact hmem

/-- An empty pinned tier has a zero byte estimate; conversely the fold
always answers on a non-empty tier. -/
theorem lowest_scored_isSome (st : CacheState)
    (h : st.pinned_cache ≠ []) :
    (lowest_scored_pinned_cached st).isSome := by
  unfold lowest_scored_pinned_cached
  have main : ∀ (l : List (Nat × List Syn)) (ma : ℚ)
      (w : Option (Nat × ℚ)), l ≠ [] ∨ w.isSome →
      (l.foldl (fun w p =>
        let score := pinned_score_from_synapses st p.1 p.2 ma
        match w with
        | some q => if q.2 ≤ score then w else some (p.1, score)
        | none => some (p.1, score)) w).isSome := by
    intro l
    induction l with
    | nil =>
      intro ma w hw
      rcases hw with h | h
      · exact absurd rfl h
      · simpa using h
    | cons hd tl ih =>
      intro ma w _
      simp only [List.foldl_cons]
      apply ih
      right
      cases w with
      | none => simp
      | some q0 =>
        by_cases hsc : q0.2 ≤ pinned_score_from_synapses st hd.1 hd.2 ma
        · simp [hsc]
        · simp [hsc]
  simpa using main st.pinned_cache _ none (Or.inl h)

theorem length_filter_lt_of_mem {α : Type} (pr : α → Bool) (l : List α)
    (x : α) (hx : x ∈ l) (hpx : pr x = false) :
    (l.filter pr).length < l.length := by
  induction l with
  | nil => simp at hx
  | cons hd tl ih =>
    rcases List.mem_cons.mp hx with rfl | hmem
    · simp only [List.filter_cons, hpx]
      exact Nat.lt_succ_of_le (List.length_filter_le _ _)
    · by_cases hhd : pr hd
      · simp only [List.filter_cons, hhd, if_true, List.length_cons]
        exact Nat.succ_lt_succ (ih hmem)
      · simp only [List.filter_cons, hhd, if_false, List.length_cons,
          Bool.false_eq_true]
        exact Nat.lt_succ_of_le (List.length_filter_le _ _)

theorem lru_evict_cache_budget : ∀ (fuel : Nat) (st : CacheState),
    (lru_evict_loop fuel st).cache_budget_bytes = st.cache_budget_bytes := by
  intro fuel
  induction fuel with
  | zero => intro st; rfl
  | succ f ih =>
    intro st
    rw [lru_evict_loop]
    split
    · rfl
    · split
      · rfl
      · exact ih _

theorem pinned_evict_cache_budget : ∀ (fuel : Nat) (st : CacheState),
    (pinned_evict_loop fuel st).cache_budget_bytes =
      st.cache_budget_bytes := by
  intro fuel
  induction fuel with
  | zero => intro st; rfl
  | succ f ih =>
    intro st
    rw [pinned_evict_loop]
    split
    · rfl
    · split
      · rfl
      · exact ih _

theorem combined_evict_cache_budget : ∀ (fuel : Nat) (st : CacheState),
    (combined_evict_loop fuel st).cache_budget_bytes =
      st.cache_budget_bytes := by
  intro fuel
  induction fuel with
  | zero => intro st; rfl
  | succ f ih =>
    intro st
    rw [combined_evict_loop]
    split
    · rfl
    · split
      · exact ih _
      · split
        · rfl
        · exact ih _

/-- The third eviction loop, given fuel at least the total number of
cached entries, always reaches a state within the combined budget: each
iteration removes one entry, and a state exceeding the (non-negative)
budget has a positive byte estimate, hence a non-empty tier to evict
from. -/
theorem combined_evict_le : ∀ (fuel : Nat) (st : CacheState),
    st.pinned_cache.length + st.base_cache.length ≤ fuel →
    cache_bytes_est (combined_evict_loop fuel st) ≤
      st.cache_budget_bytes := by
  intro fuel
  induction fuel with
  | zero =>
    intro st hlen
    have hp : st.pinned_cache = [] :=
      List.length_eq_zero.mp (by omega)
    have hb : st.base_cache = [] :=
      List.length_eq_zero.mp (by omega)
    simp [combined_evict_loop, cache_bytes_est, pinned_bytes_est,
      lru_bytes_est, hp, hb]
  | succ f ih =>
    intro st hlen
    rw [combined_evict_loop]
    split
    · next hle => exact hle
    · next hgt =>
      split
      · next x xs hbc =>
        have hrec := ih { st with base_cache := st.base_cache.dropLast }
          (by
            simp only [List.length_dropLast]
            rw [hbc] at hlen ⊢
            simp only [List.length_cons] at hlen ⊢
            omega)
        exact hrec
      · next hbc =>
        split
        · next hnone =>
          exfalso
          by_cases hpc : st.pinned_cache = []
          · apply hgt
            simp [cache_bytes_est, pinned_bytes_est, lru_bytes_est,
              hpc, hbc]
          · have := lowest_scored_isSome st hpc
            rw [hnone] at this
            simp at this
        · next victim hv =>
          have hmem := lowest_scored_mem st victim hv
          obtain ⟨p, hp, hpv⟩ := List.mem_map.mp hmem
          have hdec : ((st.pinned_cache.filter
              (fun p => p.1 ≠ victim)).length < st.pinned_cache.length) :=
            length_filter_lt_of_mem _ _ p hp (by simp [hpv])
          have hrec := ih (remove_pinned st victim) (by
            simp only [remove_pinned, hbc]
            simp only [List.length_nil]
            omega)
          exact hrec

/-- C9.  Whenever `enforce_cache_budget` returns, the recounted total
cache byte estimate (pinned tier plus LRU tier, each node estimated at
`12·count + 64` bytes) is within `cache_budget_bytes`, which the
enforcement itself never changes. -/
theorem C9_enforce_cache_budget_invariant (st : CacheState) :
    cache_bytes_est (enforce_cache_budget st) ≤ st.cache_budget_bytes ∧
    (enforce_cache_budget st).cache_budget_bytes =
      st.cache_budget_bytes := by
  unfold enforce_cache_budget
  constructor
  · refine le_trans (combined_evict_le _ _ (le_refl _)) ?_
    split
    · rw [pinned_evict_cache_budget, lru_evict_cache_budget]
    · rw [lru_evict_cache_budget]
  · rw [combined_evict_cache_budget]
    split
    · rw [pinned_evict_cache_budget, lru_evict_cache_budget]
    · rw [lru_evict_cache_budget]

theorem lookupA_append_elim {β : Type} (a b : List (Nat × β)) (k : Nat) :
    lookupA (a ++ b) k = (lookupA a k).elim (lookupA b k) some := by
  induction a with
  | nil => simp [lookupA]
  | cons hd tl ih =>
    obtain ⟨k₀, v₀⟩ := hd
    by_cases h : k₀ = k
    · simp [lookupA, h]
    · simp [lookupA, h, ih]

/-- Lookup over an arithmetic-progression key range laid out by
`List.range`. -/
theorem lookupA_map_range_off {β : Type} (c : β) :
    ∀ (n off k : Nat),
    lookupA ((List.range n).map (fun j => (j + off, c))) k =
      if off ≤ k ∧ k < n + off then some c else none := by
  intro n
  induction n with
  | zero =>
    intro off k
    rw [if_neg (by omega)]
    simp [lookupA]
  | succ m ih =>
    intro off k
    rw [List.range_succ, List.map_append, lookupA_append_elim, ih]
    by_cases h1 : off ≤ k ∧ k < m + off
    · rw [if_pos h1, if_pos (by omega)]
      rfl
    · rw [if_neg h1]
      by_cases h2 : m + off = k
      · simp [lookupA, h2, if_pos (by omega : off ≤ k ∧ k < m + 1 + off)]
      · simp only [Option.elim_none, List.map_cons, List.map_nil]
        rw [if_neg (by omega)]
        simp [lookupA, h2]

/-- `any` of a receiver test over an arithmetic-progression synapse
run. -/
theorem any_receiver_map_range (w : ℚ) :
    ∀ (n off k : Nat),
    (((List.range n).map (fun j => Syn.mk (j + off) w)).any
      (fun s => s.receiver_id = k)) = decide (off ≤ k ∧ k < n + off) := by
  intro n
  induction n with
  | zero =>
    intro off k
    simp only [List.range_zero, List.map_nil, List.any_nil]
    symm
    rw [decide_eq_false_iff_not]
    omega
  | succ m ih =>
    intro m_1 k
    rw [List.range_succ, List.map_append, List.any_append, ih]
    simp only [List.map_cons, List.map_nil, List.any_cons, List.any_nil,
      Bool.or_false]
    rw [← Bool.decide_or]
    rw [decide_eq_decide]
    constructor
    · rintro (h | h)
      · exact ⟨h.1, by omega⟩
      · have h' : m + m_1 = k := h
        omega
    · rintro ⟨h1, h2⟩
      by_cases h3 : k < m + m_1
      · exact Or.inl ⟨h1, h3⟩
      · have h' : m + m_1 = k := by omega
        exact Or.inr h'

theorem take_map_range {α : Type} (f : Nat → α) (n : Nat) :
    ((List.range n).map f).take n = (List.range n).map f :=
  List.take_of_length_le (by simp)

/-- Unfolding lemmas used to evaluate the association-list primitives on
concrete lists one constructor at a time (plain rewriting, so a large
symbolic tail is never forced). -/
theorem lookupA_nil {β : Type} (x : Nat) :
    lookupA ([] : List (Nat × β)) x = none := rfl

theorem lookupA_cons {β : Type} (k : Nat) (v : β) (tl : List (Nat × β))
    (x : Nat) :
    lookupA ((k, v) :: tl) x = if k = x then some v else lookupA tl x :=
  rfl

theorem upsertA_nil {β : Type} (k : Nat) (v : β) :
    upsertA ([] : List (Nat × β)) k v = [(k, v)] := rfl

theorem upsertA_cons {β : Type} (k' : Nat) (v' : β)
    (tl : List (Nat × β)) (k : Nat) (v : β) :
    upsertA ((k', v') :: tl) k v =
      if k' = k then (k, v) :: tl else (k', v') :: upsertA tl k v := rfl

theorem length_upsertA_le {β : Type} :
    ∀ (l : List (Nat × β)) (k : Nat) (v : β),
      (upsertA l k v).length ≤ l.length + 1 := by
  intro l
  induction l with
  | nil => intro k v; simp [upsertA]
  | cons hd tl ih =>
    intro k v
    obtain ⟨k', v'⟩ := hd
    by_cases h : k' = k
    · simp [upsertA, h]
    · simp only [upsertA, if_neg h, List.length_cons]
      exact Nat.succ_le_succ (ih k v)

theorem le_length_upsertA {β : Type} :
    ∀ (l : List (Nat × β)) (k : Nat) (v : β),
      l.length ≤ (upsertA l k v).length := by
  intro l
  induction l with
  | nil => intro k v; simp [upsertA]
  | cons hd tl ih =>
    intro k v
    obtain ⟨k', v'⟩ := hd
    by_cases h : k' = k
    · simp [upsertA, h]
    · simp only [upsertA, if_neg h, List.length_cons]
      exact Nat.succ_le_succ (ih k v)

/-- `formInnerStep` either leaves the engine unchanged or (only when
`jp.1 ≠ i`) appends one delta record and upserts one receiver into the
sender's overlay map. -/
theorem formInnerStep_cases (rands : Nat → ℚ) (i t : Nat) (str : ℚ)
    (st : Engine × Nat × Nat) (jp : Nat × Nat × ℚ) :
    (formInnerStep rands i t str st jp).1 = st.1 ∨
    (¬ jp.1 = i ∧
      (formInnerStep rands i t str st jp).1 =
        { append_delta_entry st.1 t jp.2.1 INITIAL_WEIGHT st.1.tick with
            delta_index := upsertA st.1.delta_index t
              (upsertA ((lookupA st.1.delta_index t).getD []) jp.2.1
                (INITIAL_WEIGHT, st.1.tick)) }) := by
  unfold formInnerStep
  by_cases g1 : jp.1 = i
  · rw [if_pos g1]; exact Or.inl rfl
  · rw [if_neg g1]
    by_cases g2 : ¬ hasKey st.1.node_index jp.2.1 = true
    · rw [if_pos g2]; exact Or.inl rfl
    · rw [if_neg g2]
      by_cases g3 : str * jp.2.2 < rands st.2.2
      · rw [if_pos g3]; exact Or.inl rfl
      · rw [if_neg g3]
        by_cases g4 : hasKey ((lookupA st.1.delta_index t).getD []) jp.2.1
        · rw [if_pos g4]; exact Or.inl rfl
        · rw [if_neg g4]
          by_cases g5 : (load_from_base st.1 t).any
              (fun s => s.receiver_id = jp.2.1) = true
          · rw [if_pos g5]; exact Or.inl rfl
          · rw [if_neg g5]; exact Or.inr ⟨g1, rfl⟩

theorem formInnerStep_node_index (rands : Nat → ℚ) (i t : Nat) (str : ℚ)
    (st : Engine × Nat × Nat) (jp : Nat × Nat × ℚ) :
    (formInnerStep rands i t str st jp).1.node_index = st.1.node_index := by
  rcases formInnerStep_cases rands i t str st jp with h | ⟨_, h⟩
  · rw [h]
  · rw [h]
    rfl

theorem formInnerStep_window (rands : Nat → ℚ) (i t : Nat) (str : ℚ)
    (st : Engine × Nat × Nat) (jp : Nat × Nat × ℚ) :
    (formInnerStep rands i t str st jp).1.temporal_window =
      st.1.temporal_window := by
  rcases formInnerStep_cases rands i t str st jp with h | ⟨_, h⟩
  · rw [h]
  · rw [h]
    rfl

theorem formInnerStep_delta_other (rands : Nat → ℚ) (i t : Nat) (str : ℚ)
    (st : Engine × Nat × Nat) (jp : Nat × Nat × ℚ) (s : Nat) (hs : s ≠ t) :
    lookupA (formInnerStep rands i t str st jp).1.delta_index s =
      lookupA st.1.delta_index s := by
  rcases formInnerStep_cases rands i t str st jp with h | ⟨_, h⟩
  · rw [h]
  · rw [h]
    exact lookupA_upsertA_ne _ _ _ _ hs

theorem formInnerStep_delta_self_le (rands : Nat → ℚ) (i t : Nat)
    (str : ℚ) (st : Engine × Nat × Nat) (jp : Nat × Nat × ℚ) :
    ((lookupA (formInnerStep rands i t str st jp).1.delta_index t).getD
        []).length ≤
      ((lookupA st.1.delta_index t).getD []).length +
        (if jp.1 = i then 0 else 1) := by
  rcases formInnerStep_cases rands i t str st jp with h | ⟨hji, h⟩
  · rw [h]
    exact Nat.le_add_right _ _
  · rw [h, if_neg hji]
    simp only [lookupA_upsertA_self, Option.getD_some]
    exact length_upsertA_le _ _ _

/-- One inner pass never shrinks the inner loop's nesting invariants:
the node index and the temporal window are untouched and other senders'
overlay maps are untouched; the fold versions. -/
theorem formInner_fold_node_index (rands : Nat → ℚ) (i t : Nat)
    (str : ℚ) :
    ∀ (L : List (Nat × Nat × ℚ)) (st : Engine × Nat × Nat),
      (L.foldl (formInnerStep rands i t str) st).1.node_index =
        st.1.node_index := by
  intro L
  induction L with
  | nil => intro st; rfl
  | cons hd tl ih =>
    intro st
    rw [List.foldl_cons, ih, formInnerStep_node_index]

theorem formInner_fold_window (rands : Nat → ℚ) (i t : Nat) (str : ℚ) :
    ∀ (L : List (Nat × Nat × ℚ)) (st : Engine × Nat × Nat),
      (L.foldl (formInnerStep rands i t str) st).1.temporal_window =
        st.1.temporal_window := by
  intro L
  induction L with
  | nil => intro st; rfl
  | cons hd tl ih =>
    intro st
    rw [List.foldl_cons, ih, formInnerStep_window]

theorem formInner_fold_delta_other (rands : Nat → ℚ) (i t : Nat)
    (str : ℚ) (s : Nat) (hs : s ≠ t) :
    ∀ (L : List (Nat × Nat × ℚ)) (st : Engine × Nat × Nat),
      lookupA (L.foldl (formInnerStep rands i t str) st).1.delta_index s =
        lookupA st.1.delta_index s := by
  intro L
  induction L with
  | nil => intro st; rfl
  | cons hd tl ih =>
    intro st
    rw [List.foldl_cons, ih, formInnerStep_delta_other rands i t str st hd
      s hs]

/-- Across one full inner loop the sender's overlay map grows by at most
the number of processed pairs whose index differs from the sender's. -/
theorem formInner_fold_delta_le (rands : Nat → ℚ) (i t : Nat) (str : ℚ) :
    ∀ (L : List (Nat × Nat × ℚ)) (st : Engine × Nat × Nat),
      ((lookupA (L.foldl (formInnerStep rands i t str) st).1.delta_index
          t).getD []).length ≤
        ((lookupA st.1.delta_index t).getD []).length +
          L.countP (fun jp => decide (¬ jp.1 = i)) := by
  intro L
  induction L with
  | nil =>
    intro st
    simp [List.countP_nil]
  | cons hd tl ih =>
    intro st
    rw [List.foldl_cons]
    simp only [List.countP_cons]
    have h1 := ih (formInnerStep rands i t str st hd)
    have h2 := formInnerStep_delta_self_le rands i t str st hd
    by_cases h : hd.1 = i
    · rw [if_pos h] at h2
      have h3 : (decide (¬ hd.1 = i)) = false := by
        simp [h]
      rw [h3, if_neg Bool.false_ne_true]
      omega
    · rw [if_neg h] at h2
      have h3 : (decide (¬ hd.1 = i)) = true := by
        simp [h]
      rw [h3, if_pos rfl]
      omega

/-- In `List.range len` every index but `i` itself differs from `i`. -/
theorem countP_ne_range :
    ∀ (len i : Nat), i < len →
      (List.range len).countP (fun n => decide (¬ n = i)) = len - 1 := by
  intro len
  induction len with
  | zero => intro i h; omega
  | succ m ih =>
    intro i h
    rw [List.range_succ, List.countP_append]
    by_cases h2 : i < m
    · rw [ih i h2]
      have h3 : List.countP (fun n => decide (¬ n = i)) [m] = 1 := by
        simp [List.countP_cons, Nat.ne_of_gt h2]
      rw [h3]
      omega
    · have h4 : i = m := by omega
      subst h4
      have h5 : (List.range i).countP (fun n => decide (¬ n = i)) =
          (List.range i).length := by
        apply List.countP_eq_length.2
        intro a ha
        rw [List.mem_range] at ha
        simp
        omega
      have h6 : List.countP (fun n => decide (¬ n = i)) [i] = 0 := by
        simp
      rw [h5, h6, List.length_range]
      omega

theorem countP_ne_enum {α : Type} (nodes : List α) (i : Nat)
    (h : i < nodes.length) :
    nodes.enum.countP (fun jp => decide (¬ jp.1 = i)) =
      nodes.length - 1 := by
  have h1 : nodes.enum.countP (fun jp => decide (¬ jp.1 = i)) =
      (nodes.enum.map Prod.fst).countP (fun n => decide (¬ n = i)) := by
    rw [List.countP_map]
    rfl
  rw [h1, List.enum_map_fst]
  exact countP_ne_range _ _ h

/-- `formOuterStep` either skips the sender entirely or — only below the
7000 limit — runs the unguarded inner loop over the whole window. -/
theorem formOuterStep_cases (rands : Nat → ℚ) (nodes : List (Nat × ℚ))
    (st : Engine × Nat × Nat) (ip : Nat × Nat × ℚ) :
    formOuterStep rands nodes st ip = st ∨
    (¬ MAX_SYNAPSES_PER_NODE ≤ synapse_count_for st.1 ip.2.1 ∧
      formOuterStep rands nodes st ip =
        nodes.enum.foldl (formInnerStep rands ip.1 ip.2.1 ip.2.2) st) := by
  unfold formOuterStep
  by_cases g1 : ¬ hasKey st.1.node_index ip.2.1 = true
  · rw [if_pos g1]; exact Or.inl rfl
  · rw [if_neg g1]
    by_cases g2 : ip.2.2 < (lookupA st.1.node_index ip.2.1).elim
        DEFAULT_THRESHOLD (fun m => m.threshold)
    · rw [if_pos g2]; exact Or.inl rfl
    · rw [if_neg g2]
      by_cases g3 : MAX_SYNAPSES_PER_NODE ≤ synapse_count_for st.1 ip.2.1
      · rw [if_pos g3]; exact Or.inl rfl
      · rw [if_neg g3]; exact Or.inr ⟨g3, rfl⟩

/-- One outer pass keeps the C3 invariant: the node index is untouched,
the fixed sender's count stays under
`max initial (MAX_SYNAPSES_PER_NODE - 1 + (window - 1))`, and a sender
that started at or above the limit keeps exactly its initial count. -/
theorem formOuterStep_inv (rands : Nat → ℚ) (nodes : List (Nat × ℚ))
    (e : Engine) (s : Nat) (st : Engine × Nat × Nat) (ip : Nat × Nat × ℚ)
    (hip : ip.1 < nodes.length)
    (hnode : st.1.node_index = e.node_index)
    (hwin : st.1.temporal_window = e.temporal_window)
    (hbound : synapse_count_for st.1 s ≤
      max (synapse_count_for e s)
        (MAX_SYNAPSES_PER_NODE - 1 + (nodes.length - 1)))
    (hskip : MAX_SYNAPSES_PER_NODE ≤ synapse_count_for e s →
      synapse_count_for st.1 s = synapse_count_for e s) :
    (formOuterStep rands nodes st ip).1.node_index = e.node_index ∧
    (formOuterStep rands nodes st ip).1.temporal_window =
      e.temporal_window ∧
    synapse_count_for (formOuterStep rands nodes st ip).1 s ≤
      max (synapse_count_for e s)
        (MAX_SYNAPSES_PER_NODE - 1 + (nodes.length - 1)) ∧
    (MAX_SYNAPSES_PER_NODE ≤ synapse_count_for e s →
      synapse_count_for (formOuterStep rands nodes st ip).1 s =
        synapse_count_for e s) := by
  rcases formOuterStep_cases rands nodes st ip with h | ⟨hlim, h⟩
  · rw [h]
    exact ⟨hnode, hwin, hbound, hskip⟩
  · rw [h]
    have hn := formInner_fold_node_index rands ip.1 ip.2.1 ip.2.2
      nodes.enum st
    have hw := formInner_fold_window rands ip.1 ip.2.1 ip.2.2 nodes.enum st
    refine ⟨by rw [hn, hnode], by rw [hw, hwin], ?_, ?_⟩
    · by_cases hs : s = ip.2.1
      · subst hs
        have hd1 := formInner_fold_delta_le rands ip.1 ip.2.1 ip.2.2
          nodes.enum st
        rw [countP_ne_enum nodes ip.1 hip] at hd1
        have hc : synapse_count_for
            ((nodes.enum.foldl (formInnerStep rands ip.1 ip.2.1 ip.2.2)
              st).1) ip.2.1 ≤
            synapse_count_for st.1 ip.2.1 + (nodes.length - 1) := by
          unfold synapse_count_for
          rw [hn]
          omega
        refine le_trans ?_ (le_max_right (synapse_count_for e ip.2.1) _)
        have hM : MAX_SYNAPSES_PER_NODE = 7000 := rfl
        omega
      · have hpres : synapse_count_for
            ((nodes.enum.foldl (formInnerStep rands ip.1 ip.2.1 ip.2.2)
              st).1) s = synapse_count_for st.1 s := by
          unfold synapse_count_for
          rw [hn, formInner_fold_delta_other rands ip.1 ip.2.1 ip.2.2 s hs]
        rw [hpres]
        exact hbound
    · intro hm
      by_cases hs : s = ip.2.1
      · subst hs
        exact absurd (le_of_le_of_eq hm (hskip hm).symm) hlim
      · have hpres : synapse_count_for
            ((nodes.enum.foldl (formInnerStep rands ip.1 ip.2.1 ip.2.2)
              st).1) s = synapse_count_for st.1 s := by
          unfold synapse_count_for
          rw [hn, formInner_fold_delta_other rands ip.1 ip.2.1 ip.2.2 s hs]
        rw [hpres]
        exact hskip hm

/-- The outer fold keeps the C3 invariant for every prefix of the window
enumeration. -/
theorem formOuter_fold_inv (rands : Nat → ℚ) (nodes : List (Nat × ℚ))
    (e : Engine) (s : Nat) :
    ∀ (L : List (Nat × Nat × ℚ)), (∀ ip ∈ L, ip.1 < nodes.length) →
    ∀ (st : Engine × Nat × Nat),
      st.1.node_index = e.node_index →
      st.1.temporal_window = e.temporal_window →
      synapse_count_for st.1 s ≤
        max (synapse_count_for e s)
          (MAX_SYNAPSES_PER_NODE - 1 + (nodes.length - 1)) →
      (MAX_SYNAPSES_PER_NODE ≤ synapse_count_for e s →
        synapse_count_for st.1 s = synapse_count_for e s) →
      (L.foldl (formOuterStep rands nodes) st).1.node_index =
          e.node_index ∧
      (L.foldl (formOuterStep rands nodes) st).1.temporal_window =
          e.temporal_window ∧
      synapse_count_for (L.foldl (formOuterStep rands nodes) st).1 s ≤
        max (synapse_count_for e s)
          (MAX_SYNAPSES_PER_NODE - 1 + (nodes.length - 1)) ∧
      (MAX_SYNAPSES_PER_NODE ≤ synapse_count_for e s →
        synapse_count_for (L.foldl (formOuterStep rands nodes) st).1 s =
          synapse_count_for e s) := by
  intro L
  induction L with
  | nil =>
    intro _ st hnode hwin hbound hskip
    exact ⟨hnode, hwin, hbound, hskip⟩
  | cons hd tl ih =>
    intro hL st hnode hwin hbound hskip
    rw [List.foldl_cons]
    obtain ⟨h1, h2, h3, h4⟩ := formOuterStep_inv rands nodes e s st hd
      (hL hd (List.mem_cons_self hd tl)) hnode hwin hbound hskip
    exact ih (fun ip hip => hL ip (List.mem_cons_of_mem hd hip)) _ h1 h2
      h3 h4

/-- One full `form_synapses_from_window` call: node index and window are
untouched, every sender's count stays under
`max initial (MAX_SYNAPSES_PER_NODE - 1 + (window - 1))`, and a sender
at or above the limit forms nothing. -/
theorem form_call_inv (e : Engine) (rands : Nat → ℚ) (k0 s : Nat) :
    (form_synapses_from_window e rands k0).1.node_index = e.node_index ∧
    (form_synapses_from_window e rands k0).1.temporal_window =
      e.temporal_window ∧
    synapse_count_for (form_synapses_from_window e rands k0).1 s ≤
      max (synapse_count_for e s)
        (MAX_SYNAPSES_PER_NODE - 1 + (e.temporal_window.length - 1)) ∧
    (MAX_SYNAPSES_PER_NODE ≤ synapse_count_for e s →
      synapse_count_for (form_synapses_from_window e rands k0).1 s =
        synapse_count_for e s) := by
  unfold form_synapses_from_window
  have hlen : (e.temporal_window.map (fun t => (t.1, t.2.1))).length =
      e.temporal_window.length := List.length_map _ _
  have hmem : ∀ ip ∈ (e.temporal_window.map
      (fun t => (t.1, t.2.1))).enum,
      ip.1 < (e.temporal_window.map (fun t => (t.1, t.2.1))).length := by
    intro ip hip
    have h1 : ip.1 ∈ (e.temporal_window.map
        (fun t => (t.1, t.2.1))).enum.map Prod.fst :=
      List.mem_map_of_mem _ hip
    rw [List.enum_map_fst] at h1
    exact List.mem_range.1 h1
  obtain ⟨h1, h2, h3, h4⟩ := formOuter_fold_inv rands
    (e.temporal_window.map (fun t => (t.1, t.2.1))) e s
    (e.temporal_window.map (fun t => (t.1, t.2.1))).enum hmem (e, 0, k0)
    rfl rfl (le_max_left _ _) (fun _ => rfl)
  rw [hlen] at h3
  exact ⟨h1, h2, h3, h4⟩

theorem lookupA_tailMeta (k : Nat) :
    lookupA tailMeta k =
      if 2 ≤ k ∧ k < 7006 then some ⟨0, none, DEFAULT_THRESHOLD⟩
      else none := by
  rw [tailMeta, lookupA_map_range_off]

theorem any_baseRun (k : Nat) :
    (baseRun.any (fun s => s.receiver_id = k)) =
      decide (2 ≤ k ∧ k < 7001) := by
  rw [baseRun, any_receiver_map_range]

theorem take_baseRun : baseRun.take 6999 = baseRun :=
  take_map_range _ _

theorem length_baseRun : baseRun.length = 6999 := by
  rw [baseRun]
  simp only [List.length_map, List.length_range]

attribute [irreducible] baseRun tailMeta

set_option maxHeartbeats 2000000 in
set_option maxRecDepth 6000 in
/-- C3 counterexample.  On `E3` sender 1 starts at 6999 edges — within
the 7000 limit — yet one `form_synapses_from_window` call (samples all
`0.05`, below every success probability `1.0·0.1`) forms four more
edges to 7001..7004: the limit is checked once per outer pass, before
the inner loop, so the count reaches 7003 > 7000. -/
theorem C3_counterexample_limit_overshoot :
    synapse_count_for E3 1 = 6999 ∧
    synapse_count_for E3 1 ≤ MAX_SYNAPSES_PER_NODE ∧
    synapse_count_for
        (form_synapses_from_window E3 (fun _ => 1/20) 0).1 1 = 7003 ∧
    MAX_SYNAPSES_PER_NODE <
      synapse_count_for
        (form_synapses_from_window E3 (fun _ => 1/20) 0).1 1 := by
  have h1 : synapse_count_for E3 1 = 6999 := by
    norm_num [synapse_count_for, E3, lookupA_cons, lookupA_nil]
  have h2 : synapse_count_for
      (form_synapses_from_window E3 (fun _ => 1/20) 0).1 1 = 7003 := by
    norm_num [form_synapses_from_window, formOuterStep, formInnerStep,
      synapse_count_for, E3, lookupA_cons, lookupA_nil, upsertA_cons,
      upsertA_nil, hasKey, load_from_base, read_synapses_at,
      append_delta_entry, lookupA_tailMeta, any_baseRun, take_baseRun,
      length_baseRun, List.enum, List.enumFrom, MAX_SYNAPSES_PER_NODE,
      DEFAULT_THRESHOLD, INITIAL_WEIGHT, delta_header_file]
  refine ⟨h1, by rw [h1]; norm_num [MAX_SYNAPSES_PER_NODE], h2,
    by rw [h2]; norm_num [MAX_SYNAPSES_PER_NODE]⟩

/-- C3 (amended).  After any number of `form_synapses_from_window`
calls, a sender's total outgoing edge count (base meta count plus delta
overlay) stays below
`max initial (MAX_SYNAPSES_PER_NODE - 1 + (window length - 1))` — the
7000 limit itself can be overshot by up to `window length - 1` edges,
because the limit is checked once per sender per call, before the
unguarded inner loop; a sender
whose count is already at or above the limit forms nothing and keeps
exactly its initial count. -/
theorem C3_synapse_limit_amended (e : Engine) (rands : Nat → ℚ)
    (n k0 s : Nat) :
    synapse_count_for (form_calls rands n (e, k0)).1 s ≤
      max (synapse_count_for e s)
        (MAX_SYNAPSES_PER_NODE - 1 + (e.temporal_window.length - 1)) ∧
    (MAX_SYNAPSES_PER_NODE ≤ synapse_count_for e s →
      synapse_count_for (form_calls rands n (e, k0)).1 s =
        synapse_count_for e s) := by
  induction n generalizing e k0 with
  | zero => exact ⟨le_max_left _ _, fun _ => rfl⟩
  | succ m ih =>
    simp only [form_calls]
    obtain ⟨_, hwin, hbound, hskip⟩ := form_call_inv e rands k0 s
    obtain ⟨ihb, ihs⟩ := ih (form_synapses_from_window e rands k0).1
      (form_synapses_from_window e rands k0).2.2
    constructor
    · refine le_trans ihb ?_
      rw [hwin]
      exact max_le (le_trans hbound (le_refl _)) (le_max_right _ _)
    · intro hm
      rw [ihs (by rw [hskip hm]; exact hm), hskip hm]

theorem C3_witness :
    synapse_count_for (form_calls (fun _ => 0) 1 (E3L, 0)).1 1 ≤
      max (synapse_count_for E3L 1)
        (MAX_SYNAPSES_PER_NODE - 1 + (E3L.temporal_window.length - 1)) ∧
    synapse_count_for (form_calls (fun _ => 0) 1 (E3L, 0)).1 1 =
      synapse_count_for E3L 1 :=
  ⟨(C3_synapse_limit_amended E3L (fun _ => 0) 1 0 1).1,
   (C3_synapse_limit_amended E3L (fun _ => 0) 1 0 1).2
     (by norm_num [synapse_count_for, E3L, lookupA_cons, lookupA_nil,
       MAX_SYNAPSES_PER_NODE])⟩
